import Mathlib

/-!
Verification of the frame-accurate playback core of the `videotest` video
editor: the `FrameTicker` clock (`src/lib/video-player/frame-ticker.ts`),
the `VideoPlayerController` asset handling, and the `FrameStore` frame
cache / prefetch scheduler (LRU cache, priority queue, batch processor).

Numbers are modelled as exact rationals (`ℚ`); JavaScript `x || d`
truthiness on optional numerics is modelled by `jsOrQ`.  `undefined`
fields are `Option`.
-/

namespace VideoTest

/-- JS `x || d` for an optional numeric `x`: `undefined` and `0` are falsy. -/
def jsOrQ (x : Option ℚ) (d : ℚ) : ℚ :=
  match x with
  | some v => if v = 0 then d else v
  | none => d

/-! ## FrameTicker (frame-ticker.ts) -/

/-- `FrameTick` value (frame-ticker.ts lines 6-11). -/
structure FrameTick where
  frame : ℚ
  rate : ℚ
  time : ℚ
  fps : ℚ
deriving DecidableEq, Repr

/-- `FrameBoundary` (frame-ticker.ts lines 13-16); `end` is a Lean keyword,
so the optional end frame is called `endF`. -/
structure FrameBoundary where
  start : ℚ
  endF : Option ℚ
deriving DecidableEq, Repr

/-- The transient selection installed by `start(from, to)`: in the source it
is `{ start: number; end: number } | null`; both fields are always numbers. -/
structure Selection where
  start : ℚ
  endF : ℚ
deriving DecidableEq, Repr

/-- State of a `FrameTicker` object (frame-ticker.ts lines 18-24).  The
wall-clock bookkeeping field `_frameTick` is replaced by passing the elapsed
seconds `dt` to `update` directly. -/
structure FrameTicker where
  currentTick : FrameTick
  boundary : FrameBoundary
  selection : Option Selection
  fps : ℚ
deriving DecidableEq, Repr

namespace FrameTicker

/-- `constructor(fps)` (lines 26-34): no validation of `fps` whatsoever. -/
def create (fps : ℚ) : FrameTicker :=
  { currentTick := { frame := 0, rate := 0, time := 0, fps := fps }
    boundary := { start := 0, endF := none }
    selection := none
    fps := fps }

/-- `stop()` (lines 50-53). -/
def stop (t : FrameTicker) : FrameTicker :=
  { t with currentTick := { t.currentTick with rate := 0 }, selection := none }

/-- `start(from?, to?)` (lines 36-48): installs a selection
`{start: from || 0, end: to || boundary.end || 0}` when either argument is
supplied, then sets rate to 1.  (The `context` argument is omitted: it only
labels the ticker.) -/
def start (t : FrameTicker) (fromArg toArg : Option ℚ) : FrameTicker :=
  let t :=
    if fromArg.isSome ∨ toArg.isSome then
      { t with selection := some ⟨jsOrQ fromArg 0, jsOrQ toArg (jsOrQ t.boundary.endF 0)⟩ }
    else t
  { t with currentTick := { t.currentTick with rate := 1 } }

/-- `checkBoundary(boundary)` (lines 55-79).  Mirrors the source exactly:
the start clamp fires when `boundary.start >= 0 && frame <= boundary.start`,
the end clamp when `boundary.end` is truthy (defined and nonzero),
`boundary.end >= 0` and `frame >= boundary.end`.  Clamping moves `frame`
only; `time` is never touched.  Returns the updated ticker and the
`stopped` flag. -/
def checkBoundary (t : FrameTicker) (b : FrameBoundary) : FrameTicker × Bool :=
  let r1 :=
    if b.start ≥ 0 ∧ t.currentTick.frame ≤ b.start then
      let t' := { t with currentTick := { t.currentTick with frame := b.start } }
      if t'.currentTick.rate < 0 then (t'.stop, true) else (t', false)
    else (t, false)
  match b.endF with
  | some e =>
      if e ≠ 0 ∧ e ≥ 0 ∧ r1.1.currentTick.frame ≥ e then
        let t' := { r1.1 with
          currentTick := { r1.1.currentTick with frame := e - 1 } }
        if t'.currentTick.rate > 0 then (t'.stop, true) else (t', r1.2)
      else r1
  | none => r1

/-- The additive phase of `update` (lines 85-86):
`time += dt*rate; frame += dt*fps*rate`. -/
def advance (t : FrameTicker) (dt : ℚ) : FrameTicker :=
  { t with currentTick := { t.currentTick with
      time := t.currentTick.time + dt * t.currentTick.rate
      frame := t.currentTick.frame + dt * t.fps * t.currentTick.rate } }

/-- `update()` (lines 81-92) with the measured elapsed seconds passed in:
advance, then `checkBoundary(this._boundary)`, then
`checkBoundary(this._selection)` — the selection is read *after* the first
check (which may have cleared it via `stop()`); `checkBoundary(null)` is a
no-op. -/
def update (t : FrameTicker) (dt : ℚ) : FrameTicker :=
  let t1 := (checkBoundary (t.advance dt) t.boundary).1
  match t1.selection with
  | some sel => (checkBoundary t1 { start := sel.start, endF := some sel.endF }).1
  | none => t1

/-- `get currentFrame()` (lines 107-109): floors the fractional frame. -/
def currentFrame (t : FrameTicker) : ℤ := ⌊t.currentTick.frame⌋

/-- `set currentFrame(value)` (lines 111-116): `time := value / fps`,
`frame := value`, clear the selection, re-apply the permanent boundary. -/
def setCurrentFrame (t : FrameTicker) (v : ℚ) : FrameTicker :=
  let t' := { t with
    currentTick := { t.currentTick with time := v / t.fps, frame := v }
    selection := none }
  (checkBoundary t' t'.boundary).1

/-- `set currentRate(value)` (lines 122-127). -/
def setCurrentRate (t : FrameTicker) (v : ℚ) : FrameTicker :=
  let t' := { t with currentTick := { t.currentTick with rate := v } }
  if v = 0 then t'.stop else t'

/-- `set boundary(value)` (lines 137-139). -/
def setBoundary (t : FrameTicker) (b : FrameBoundary) : FrameTicker :=
  { t with boundary := b }

/-- `dispose()` (lines 141-144). -/
def dispose (t : FrameTicker) : FrameTicker :=
  { t.stop with selection := none }

end FrameTicker

/-- The public operations a client may perform on a ticker after
construction (start / stop / update / currentFrame setter / currentRate
setter), used to define reachable states. -/
inductive TickerOp where
  | opStart (fromArg toArg : Option ℚ)
  | opStop
  | opUpdate (dt : ℚ)
  | opSetFrame (v : ℚ)
  | opSetRate (v : ℚ)
deriving DecidableEq, Repr

def applyOp (t : FrameTicker) : TickerOp → FrameTicker
  | .opStart f g => t.start f g
  | .opStop => t.stop
  | .opUpdate dt => t.update dt
  | .opSetFrame v => t.setCurrentFrame v
  | .opSetRate v => t.setCurrentRate v

/-- Run a sequence of public operations. -/
def runOps (t : FrameTicker) (ops : List TickerOp) : FrameTicker :=
  ops.foldl applyOp t

/-- A ticker as the controller builds it (frame-ticker.ts lines 192-196):
constructed at `fps`, permanent boundary `{start: 0, end: E}`. -/
def initTicker (fps E : ℚ) : FrameTicker :=
  (FrameTicker.create fps).setBoundary { start := 0, endF := some E }

/-! ## VideoPlayerController (second part of frame-ticker.ts) -/

/-- The slice of `LocalVideoAsset.metadata` that `setAsset` reads. -/
structure AssetMetadata where
  fps : ℚ
  duration : ℚ
deriving DecidableEq, Repr

/-- Controller state: the claims concern only the owned `FrameTicker`
(`frameTicker` field); renderer and canvas are host objects with no
bearing on the clock state. -/
structure VideoPlayerController where
  frameTicker : Option FrameTicker
deriving DecidableEq, Repr

/-- `setAsset(asset)` (controller lines 183-217): for a non-null asset it
disposes any previous ticker (the old object is simply discarded here),
constructs a new `FrameTicker` at `asset.metadata.fps` and sets the
permanent boundary to `{start: 0, end: floor(duration * fps)}`.  There is
no validation of `fps` or `duration` anywhere on this path. -/
def VideoPlayerController.setAsset (c : VideoPlayerController)
    (asset : Option AssetMetadata) : VideoPlayerController :=
  match asset with
  | some a =>
      let t := FrameTicker.create a.fps
      let t := t.setBoundary { start := 0, endF := some ((⌊a.duration * a.fps⌋ : ℤ) : ℚ) }
      { frameTicker := some t }
  | none =>
      let _ := c
      { frameTicker := none }

/-! ## LRUCache (frame-store, `src/unnamed/part_003` lines 310-351)

A JS `Map` iterates in insertion order; `delete` + `set` moves a key to
the end.  The cache is modelled as the list of entries in insertion
order, so the head is the least-recently-used entry.  `Map.delete(k)`
removes the unique entry with key `k`; under the no-duplicate-keys
invariant this equals `filter (key ≠ k)`. -/

structure LRUCache (K V : Type) where
  entries : List (K × V)
  maxSize : Nat
deriving DecidableEq, Repr

namespace LRUCache

variable {K V : Type} [DecidableEq K]

/-- `new LRUCache(maxSize)`. -/
def createCache (K V : Type) (maxSize : Nat) : LRUCache K V :=
  { entries := [], maxSize := maxSize }

/-- `has(key)` (lines 340-342). -/
def hasKey (c : LRUCache K V) (k : K) : Bool :=
  c.entries.any (fun p => decide (p.1 = k))

/-- The value currently stored under `k`, if any. -/
def getVal? (c : LRUCache K V) (k : K) : Option V :=
  (c.entries.find? (fun p => decide (p.1 = k))).map (·.2)

/-- `get(key)` (lines 318-326): a hit deletes the entry and re-inserts it
at the end (most recently used); a miss leaves the cache unchanged. -/
def get (c : LRUCache K V) (k : K) : Option V × LRUCache K V :=
  match c.getVal? k with
  | some v =>
      (some v, { c with entries := c.entries.filter (fun p => !(decide (p.1 = k))) ++ [(k, v)] })
  | none => (none, c)

/-- `set(key, value)` (lines 328-338): if the key exists, delete it first;
otherwise if `size >= maxSize`, delete the first (least recently used)
key; then insert at the end.  When the cache is empty, `keys().next().value`
is `undefined` and `delete(undefined)` is a no-op. -/
def set (c : LRUCache K V) (k : K) (v : V) : LRUCache K V :=
  if c.hasKey k then
    { c with entries := c.entries.filter (fun p => !(decide (p.1 = k))) ++ [(k, v)] }
  else if c.maxSize ≤ c.entries.length then
    let evicted :=
      match c.entries.head? with
      | some p => c.entries.filter (fun q => !(decide (q.1 = p.1)))
      | none => c.entries
    { c with entries := evicted ++ [(k, v)] }
  else
    { c with entries := c.entries ++ [(k, v)] }

/-- `clear()` (lines 344-346). -/
def clear (c : LRUCache K V) : LRUCache K V :=
  { c with entries := [] }

/-- `size()` (lines 348-350). -/
def size (c : LRUCache K V) : Nat :=
  c.entries.length

end LRUCache

/-! ## FrameStore (`src/unnamed/part_003` lines 353-674)

Decoded frames and thumbnails are opaque browser objects; they are
modelled by natural-number identifiers.  Cache keys are built in the
source as the strings `` `${videoId}_frame_${n}` `` and
`` `${videoId}_thumb_${floor(t)}` ``; since the decimal form of an
integer contains no underscore these encodings are injective in
`(videoId, n)`, and the keys are modelled by the pairs themselves.
Asynchronous decode results are supplied by a `capture` oracle; a `none`
answer stands for a seek/capture failure (the `catch` path).  Assignments
to `video.currentTime` are recorded in a `seeks` log so that issued loads
are observable. -/

abbrev FrameImage := ℕ
abbrev ThumbImage := ℕ

/-- JS `x || d` for optional naturals (`config?.maxFrames || 1000`). -/
def jsOrNat (x : Option Nat) (d : Nat) : Nat :=
  match x with
  | some v => if v = 0 then d else v
  | none => d

/-- `FrameRequest` (lines 353-358). -/
structure FrameRequest where
  videoId : String
  frameNumber : ℤ
  priority : ℚ
  timestamp : ℤ
deriving DecidableEq, Repr

/-- Constructor config (lines 373-377). -/
structure FrameStoreConfig where
  maxFrames : Option Nat
  maxThumbnails : Option Nat
  maxCanvasPool : Option Nat
deriving DecidableEq, Repr

/-- `FrameStore` state (lines 360-371).  The canvas pool holds no
claim-relevant state beyond its configured capacity. -/
structure FrameStore where
  frameCache : LRUCache (String × ℤ) FrameImage
  thumbnailCache : LRUCache (String × ℤ) ThumbImage
  priorityQueue : List FrameRequest
  isProcessing : Bool
  videoElements : List String
  seeks : List (String × ℚ)
  maxFrames : Nat
  maxThumbnails : Nat
  maxCanvasPool : Nat
deriving DecidableEq, Repr

/-- `getFrameKey` (lines 538-540), modelled as the pair (see above). -/
def frameKey (videoId : String) (n : ℤ) : String × ℤ := (videoId, n)

namespace FrameStore

/-- `constructor(config?)` (lines 373-389): capacities default to
1000 / 2000 / 10 under JS `||`. -/
def create (config : Option FrameStoreConfig) : FrameStore :=
  let mf := jsOrNat (config.bind (·.maxFrames)) 1000
  let mt := jsOrNat (config.bind (·.maxThumbnails)) 2000
  let mc := jsOrNat (config.bind (·.maxCanvasPool)) 10
  { frameCache := ⟨[], mf⟩
    thumbnailCache := ⟨[], mt⟩
    priorityQueue := []
    isProcessing := false
    videoElements := []
    seeks := []
    maxFrames := mf
    maxThumbnails := mt
    maxCanvasPool := mc }

/-- `addToQueue(request)` (lines 546-563): skip if a request with the same
`(videoId, frameNumber)` is already queued; otherwise push, stable-sort by
descending priority (JS `sort` is stable; comparator `b.priority - a.priority`),
and truncate to 1000 entries. -/
def addToQueue (s : FrameStore) (r : FrameRequest) : FrameStore :=
  if s.priorityQueue.any
      (fun req => decide (req.videoId = r.videoId) && decide (req.frameNumber = r.frameNumber)) then s
  else
    let q := (s.priorityQueue ++ [r]).mergeSort (fun a b => decide (b.priority ≤ a.priority))
    { s with priorityQueue := q.take 1000 }

/-- `getFrame(videoId, frameNumber)` (lines 415-433): non-blocking cache
lookup (a hit promotes recency); a miss enqueues a priority-1 request and
returns null. -/
def getFrame (s : FrameStore) (videoId : String) (n : ℤ) (now : ℤ) :
    Option FrameImage × FrameStore :=
  match s.frameCache.get (frameKey videoId n) with
  | (some f, c') => (some f, { s with frameCache := c' })
  | (none, _) =>
      (none, s.addToQueue { videoId := videoId, frameNumber := n, priority := 1, timestamp := now })

/-- The frames visited by `for (let f = startFrame; f <= endFrame; f++)`. -/
def frameRange (a b : ℤ) : List ℤ :=
  (List.range (b + 1 - a).toNat).map (fun (i : ℕ) => a + (i : ℤ))

/-- The request `prioritize` builds for frame `f`: priority
`max(1, 10 - |f - center|)`. -/
def prioritizeRequest (videoId : String) (centerFrame : ℚ) (now : ℤ) (f : ℤ) : FrameRequest :=
  let distance := |(f : ℚ) - centerFrame|
  { videoId := videoId, frameNumber := f, priority := max 1 (10 - distance), timestamp := now }

/-- The enqueue phase of `prioritize(videoId, startFrame, endFrame, fps)`
(lines 451-470): every frame of the inclusive range is enqueued with
priority `max(1, 10 - |frame - center|)`.  The trailing `processQueue()`
call is the separate asynchronous pass `processQueuePass`. -/
def prioritize (s : FrameStore) (videoId : String) (startFrame endFrame : ℤ) (now : ℤ) :
    FrameStore :=
  let centerFrame : ℚ := ((startFrame : ℚ) + (endFrame : ℚ)) / 2
  (frameRange startFrame endFrame).foldl
    (fun (st : FrameStore) (f : ℤ) =>
      st.addToQueue (prioritizeRequest videoId centerFrame now f))
    s

/-- `loadFrameImmediate(videoId, frameNumber, fps)` (lines 473-503):
unknown source → warn and return null with nothing else done; otherwise
seek the video to `frameNumber / fps` (logged in `seeks`), then capture;
a capture failure is caught, logged, and returns null with no cache
entry; success stores the frame in the cache and returns it. -/
def loadFrameImmediate (s : FrameStore) (capture : String → ℤ → Option FrameImage)
    (videoId : String) (n : ℤ) (fps : ℚ) : Option FrameImage × FrameStore :=
  if videoId ∈ s.videoElements then
    let s1 := { s with seeks := s.seeks ++ [(videoId, (n : ℚ) / fps)] }
    match capture videoId n with
    | some f =>
        (some f, { s1 with frameCache := s1.frameCache.set (frameKey videoId n) f })
    | none => (none, s1)
  else (none, s)

/-- One `processQueue()` pass (lines 565-597): bail out if a pass is
running or the queue is empty; otherwise splice off the first five
requests (the highest priority ones, the queue being sorted descending),
and for each: skip it if its key is already cached, otherwise call
`loadFrameImmediate` (with the default `fps = 30` of that call site) and
on success store the result (the source stores it a second time after
`loadFrameImmediate` already cached it).  A failed request leaves only
a log line.  The `setTimeout` rescheduling is a later pass.
The body of the batch loop is the separate `processRequest`: skip if the
key is already cached, else `loadFrameImmediate` (call-site default
`fps = 30`), and on success store the frame (a second time — the load
already cached it). -/
def processRequest (capture : String → ℤ → Option FrameImage) (st : FrameStore)
    (r : FrameRequest) : FrameStore :=
  if st.frameCache.hasKey (frameKey r.videoId r.frameNumber) then st
  else
    match st.loadFrameImmediate capture r.videoId r.frameNumber 30 with
    | (some f, st') =>
        { st' with frameCache := st'.frameCache.set (frameKey r.videoId r.frameNumber) f }
    | (none, st') => st'

def processQueuePass (s : FrameStore) (capture : String → ℤ → Option FrameImage) :
    FrameStore :=
  if s.isProcessing || s.priorityQueue.isEmpty then s
  else
    let batch := s.priorityQueue.take 5
    let s1 := { s with priorityQueue := s.priorityQueue.drop 5, isProcessing := true }
    let s2 := batch.foldl (processRequest capture) s1
    { s2 with isProcessing := false }

end FrameStore

/-- The synchronous queue-touching operations of the store, used for the
"any sequence of getFrame misses and prioritize calls" claims. -/
inductive StoreOp where
  | opGetFrame (videoId : String) (n : ℤ) (now : ℤ)
  | opPrioritize (videoId : String) (startFrame endFrame : ℤ) (now : ℤ)
deriving DecidableEq, Repr

def applyStoreOp (s : FrameStore) : StoreOp → FrameStore
  | .opGetFrame v n now => (s.getFrame v n now).2
  | .opPrioritize v a b now => s.prioritize v a b now

def runStoreOps (s : FrameStore) (ops : List StoreOp) : FrameStore :=
  ops.foldl applyStoreOp s

/-- The `(videoId, frameNumber)` keys of the pending requests. -/
def queueKeys (q : List FrameRequest) : List (String × ℤ) :=
  q.map (fun r => (r.videoId, r.frameNumber))

/-- No two pending requests share a `(videoId, frameNumber)` key. -/
def QueueUniq (q : List FrameRequest) : Prop :=
  (queueKeys q).Nodup

/-- The queue is sorted by descending priority (the order `addToQueue`
maintains). -/
def QueueSorted (q : List FrameRequest) : Prop :=
  q.Pairwise (fun a b => b.priority ≤ a.priority)

/-! ## Invariant vocabulary for the ticker claims -/

/-- A selection that lies inside the permanent boundary `{start: 0, end: E}`
(an inactive `end` of `0` is also allowed). -/
def GoodSel (E : ℚ) (sel : Selection) : Prop :=
  0 ≤ sel.start ∧ sel.start < E ∧ (sel.endF = 0 ∨ (1 ≤ sel.endF ∧ sel.endF ≤ E))

/-- Restriction on the public operations: a `start(from, to)` call may only
install a selection inside the permanent boundary `{start: 0, end: E}`.
All other operations are unrestricted. -/
def GoodOp (E : ℚ) : TickerOp → Prop
  | .opStart f g => (f.isSome ∨ g.isSome) → GoodSel E ⟨jsOrQ f 0, jsOrQ g (jsOrQ (some E) 0)⟩
  | _ => True

/-- State invariant for a ticker whose permanent boundary is
`{start: 0, end: E}`: the fractional frame stays in `[0, E)` and any
installed selection is inside the boundary. -/
def TickerInv (E : ℚ) (t : FrameTicker) : Prop :=
  t.boundary = { start := 0, endF := some E } ∧
    0 ≤ t.currentTick.frame ∧ t.currentTick.frame < E ∧
    ∀ sel, t.selection = some sel → GoodSel E sel

/-! # Theorems -/

/-! ## FrameTicker structural lemmas -/

namespace FrameTicker

theorem advance_boundary (t : FrameTicker) (dt : ℚ) : (t.advance dt).boundary = t.boundary := rfl

theorem advance_selection (t : FrameTicker) (dt : ℚ) : (t.advance dt).selection = t.selection := rfl

theorem advance_fps (t : FrameTicker) (dt : ℚ) : (t.advance dt).fps = t.fps := rfl

theorem advance_rate (t : FrameTicker) (dt : ℚ) : (t.advance dt).currentTick.rate = t.currentTick.rate := rfl

theorem advance_frame (t : FrameTicker) (dt : ℚ) :
    (t.advance dt).currentTick.frame = t.currentTick.frame + dt * t.fps * t.currentTick.rate := rfl

theorem advance_time (t : FrameTicker) (dt : ℚ) :
    (t.advance dt).currentTick.time = t.currentTick.time + dt * t.currentTick.rate := rfl

/-- `checkBoundary` never touches `time`. -/
theorem checkBoundary_time (t : FrameTicker) (b : FrameBoundary) :
    ((t.checkBoundary b).1).currentTick.time = t.currentTick.time := by
  rcases b with ⟨bs, _ | e⟩ <;>
    simp only [checkBoundary, stop] <;> split_ifs <;> rfl

/-- `checkBoundary` never touches the permanent boundary. -/
theorem checkBoundary_boundary (t : FrameTicker) (b : FrameBoundary) :
    ((t.checkBoundary b).1).boundary = t.boundary := by
  rcases b with ⟨bs, _ | e⟩ <;>
    simp only [checkBoundary, stop] <;> split_ifs <;> rfl

theorem checkBoundary_fps (t : FrameTicker) (b : FrameBoundary) :
    ((t.checkBoundary b).1).fps = t.fps := by
  rcases b with ⟨bs, _ | e⟩ <;>
    simp only [checkBoundary, stop] <;> split_ifs <;> rfl

/-- `checkBoundary` leaves the selection alone except when it stops. -/
theorem checkBoundary_selection (t : FrameTicker) (b : FrameBoundary) :
    ((t.checkBoundary b).1).selection = t.selection ∨ ((t.checkBoundary b).1).selection = none := by
  rcases b with ⟨bs, _ | e⟩ <;>
    simp only [checkBoundary, stop] <;> split_ifs <;> simp

/-- After checking the permanent boundary `{start: 0, end: E}` with `E ≥ 1`,
the fractional frame lies in `[0, E)`, whatever it was before. -/
theorem checkBoundary_frame_perm (t : FrameTicker) (E : ℚ) (hE : 1 ≤ E) :
    0 ≤ ((t.checkBoundary ⟨0, some E⟩).1).currentTick.frame ∧
      ((t.checkBoundary ⟨0, some E⟩).1).currentTick.frame < E := by
  have hE0 : ¬(E = 0) := by intro h; rw [h] at hE; linarith
  simp only [checkBoundary, stop, ge_iff_le, le_refl, true_and]
  split_ifs with h1 h2 h3 h4
  all_goals dsimp only at *
  all_goals push_neg at *
  all_goals constructor
  all_goals first
    | linarith
    | (rename_i hx; linarith [hx hE0 (by linarith)])

/-- Checking a selection that lies inside the permanent boundary
`{start: 0, end: E}` keeps the fractional frame inside `[0, E)`. -/
theorem checkBoundary_frame_sel (t : FrameTicker) (E : ℚ) (sel : Selection)
    (hsel : GoodSel E sel) (h0 : 0 ≤ t.currentTick.frame) (h1 : t.currentTick.frame < E) :
    0 ≤ ((t.checkBoundary ⟨sel.start, some sel.endF⟩).1).currentTick.frame ∧
      ((t.checkBoundary ⟨sel.start, some sel.endF⟩).1).currentTick.frame < E := by
  obtain ⟨hs0, hsE, hend⟩ := hsel
  rcases hend with he | ⟨he1, he2⟩
  · simp only [checkBoundary, stop, he, ge_iff_le, ne_eq, not_true_eq_false, false_and, if_false]
    split_ifs with hc1 hc2 <;> dsimp only <;> constructor <;> linarith
  · simp only [checkBoundary, stop, ge_iff_le]
    split_ifs with hc1 hc2 hc3 hc4 <;> dsimp only <;> constructor <;> linarith

/-- `update` preserves the boundary invariant. -/
theorem tickerInv_update (E : ℚ) (hE : 1 ≤ E) (t : FrameTicker)
    (hI : TickerInv E t) (dt : ℚ) : TickerInv E (t.update dt) := by
  obtain ⟨hb, h0, h1, hsel⟩ := hI
  unfold update
  set t1 := (checkBoundary (t.advance dt) t.boundary).1 with ht1
  have hbt1 : t1.boundary = { start := 0, endF := some E } := by
    rw [ht1, checkBoundary_boundary, advance_boundary, hb]
  have hfr : 0 ≤ t1.currentTick.frame ∧ t1.currentTick.frame < E := by
    rw [ht1, hb]; exact checkBoundary_frame_perm _ E hE
  have hselt1 : ∀ s, t1.selection = some s → GoodSel E s := by
    intro s hs
    rcases checkBoundary_selection (t.advance dt) t.boundary with h | h
    · exact hsel s (by rw [← advance_selection t dt, ← h, ← ht1, hs])
    · rw [ht1, h] at hs; cases hs
  rcases hcase : t1.selection with _ | sel
  · simp only [hcase]
    exact ⟨hbt1, hfr.1, hfr.2, by intro s hs; rw [hcase] at hs; cases hs⟩
  · simp only [hcase]
    have hg : GoodSel E sel := hselt1 sel hcase
    refine ⟨?_, ?_, ?_, ?_⟩
    · rw [checkBoundary_boundary]; exact hbt1
    · exact (checkBoundary_frame_sel t1 E sel hg hfr.1 hfr.2).1
    · exact (checkBoundary_frame_sel t1 E sel hg hfr.1 hfr.2).2
    · intro s hs
      rcases checkBoundary_selection t1 ⟨sel.start, some sel.endF⟩ with h | h
      · rw [h, hcase] at hs
        cases hs; exact hg
      · rw [h] at hs; cases hs

/-- If the selection is already cleared, `checkBoundary` leaves it cleared. -/
theorem checkBoundary_selection_none (t : FrameTicker) (b : FrameBoundary)
    (h : t.selection = none) : ((t.checkBoundary b).1).selection = none := by
  rcases checkBoundary_selection t b with h' | h' <;> rw [h']
  exact h

/-- `setCurrentFrame` restores the boundary invariant for any assigned value. -/
theorem tickerInv_setCurrentFrame (E : ℚ) (hE : 1 ≤ E) (t : FrameTicker)
    (hb : t.boundary = { start := 0, endF := some E }) (v : ℚ) :
    TickerInv E (t.setCurrentFrame v) := by
  unfold setCurrentFrame
  refine ⟨by rw [checkBoundary_boundary]; exact hb, ?_, ?_, ?_⟩
  · rw [hb]; exact (checkBoundary_frame_perm _ E hE).1
  · rw [hb]; exact (checkBoundary_frame_perm _ E hE).2
  · intro s hs
    rw [checkBoundary_selection_none _ _ rfl] at hs
    cases hs

end FrameTicker

/-- Every public operation whose selection arguments respect the permanent
boundary preserves the invariant. -/
theorem tickerInv_applyOp (E : ℚ) (hE : 1 ≤ E) (t : FrameTicker) (op : TickerOp)
    (hI : TickerInv E t) (hop : GoodOp E op) : TickerInv E (applyOp t op) := by
  obtain ⟨hb, h0, h1, hsel⟩ := hI
  cases op with
  | opStart f g =>
      simp only [applyOp, FrameTicker.start]
      by_cases hfg : f.isSome ∨ g.isSome
      · rw [if_pos hfg]
        refine ⟨hb, h0, h1, ?_⟩
        intro s hs
        simp only at hs
        cases hs
        have h2 : t.boundary.endF = some E := by rw [hb]
        have := hop hfg
        rwa [h2]
      · rw [if_neg hfg]
        exact ⟨hb, h0, h1, fun s hs => hsel s hs⟩
  | opStop =>
      exact ⟨hb, h0, h1, by intro s hs; cases hs⟩
  | opUpdate dt =>
      exact FrameTicker.tickerInv_update E hE t ⟨hb, h0, h1, hsel⟩ dt
  | opSetFrame v =>
      exact FrameTicker.tickerInv_setCurrentFrame E hE t hb v
  | opSetRate v =>
      simp only [applyOp, FrameTicker.setCurrentRate]
      split_ifs with hv
      · exact ⟨hb, h0, h1, by intro s hs; cases hs⟩
      · exact ⟨hb, h0, h1, fun s hs => hsel s hs⟩

/-- Invariant over any run of boundary-respecting operations. -/
theorem tickerInv_runOps (E : ℚ) (hE : 1 ≤ E) (t : FrameTicker)
    (hI : TickerInv E t) (ops : List TickerOp) (hops : ∀ op ∈ ops, GoodOp E op) :
    TickerInv E (runOps t ops) := by
  induction ops generalizing t with
  | nil => exact hI
  | cons op rest ih =>
      exact ih (applyOp t op)
        (tickerInv_applyOp E hE t op hI (hops op (List.mem_cons_self op rest)))
        (fun o ho => hops o (List.mem_cons_of_mem op ho))

namespace FrameTicker

/-- Exact value of the frame after checking the permanent boundary
`{start: 0, end: E}` with `E ≥ 1`. -/
theorem checkBoundary_frame_perm_eq (t : FrameTicker) (E : ℚ) (hE : 1 ≤ E) :
    ((t.checkBoundary ⟨0, some E⟩).1).currentTick.frame =
      (if t.currentTick.frame ≤ 0 then 0
       else if E ≤ t.currentTick.frame then E - 1 else t.currentTick.frame) := by
  have hE0 : E ≠ 0 := by intro h; rw [h] at hE; linarith
  have h0E : (0:ℚ) ≤ E := by linarith
  simp only [checkBoundary, stop, ge_iff_le, le_refl, true_and]
  split_ifs with h1 h2 h3 h4 h5 h6 h7 h8 h9 h10
  all_goals dsimp only at *
  all_goals first
    | rfl
    | linarith
    | (obtain ⟨h3a, h3b, h3c⟩ := h3; linarith)
    | (push_neg at h3; linarith [h3 hE0 h0E])
    | (obtain ⟨h5a, h5b, h5c⟩ := h5; linarith)
    | (push_neg at h5; linarith [h5 hE0 h0E])
    | (obtain ⟨h7a, h7b, h7c⟩ := h7; linarith)
    | (push_neg at h7; linarith [h7 hE0 h0E])

/-- A boundary whose `end` is absent or `0` never changes rate or selection
for forward (or stopped) motion; only the start clamp can move the frame. -/
theorem checkBoundary_inactive_end (t : FrameTicker) (b : FrameBoundary)
    (hrate : 0 ≤ t.currentTick.rate) (hend : b.endF = none ∨ b.endF = some 0) :
    ((t.checkBoundary b).1).currentTick.rate = t.currentTick.rate ∧
      ((t.checkBoundary b).1).selection = t.selection := by
  rcases b with ⟨bs, eo⟩
  rcases hend with h | h <;> simp only at h <;> subst h <;>
    simp only [checkBoundary, stop, ne_eq, not_true_eq_false, false_and, if_false] <;>
    split_ifs with h1 h2 <;> dsimp only <;> first | exact ⟨rfl, rfl⟩ | linarith

end FrameTicker

/-! ## Claim C1 -/

/-- **C1, counterexample.**  The claimed invariant `time = frame / fps` fails
on a reachable state of a ticker with `fps = 1 > 0` and boundary
`{start: 0, end: 10}`: after `start()` and an `update` of 14 elapsed seconds,
`checkBoundary` clamps `frame` to `9` but leaves `time` at `14`, so
`time ≠ frame / fps`. -/
theorem c1_time_frame_invariant_counterexample :
    0 < (runOps (initTicker 1 10) [TickerOp.opStart none none, TickerOp.opUpdate 14]).fps ∧
      (runOps (initTicker 1 10) [TickerOp.opStart none none, TickerOp.opUpdate 14]).currentTick.time ≠
        (runOps (initTicker 1 10) [TickerOp.opStart none none, TickerOp.opUpdate 14]).currentTick.frame /
          (runOps (initTicker 1 10) [TickerOp.opStart none none, TickerOp.opUpdate 14]).fps := by
  norm_num [runOps, applyOp, FrameTicker.update, FrameTicker.advance, FrameTicker.checkBoundary,
    FrameTicker.start, FrameTicker.stop, initTicker, FrameTicker.create, FrameTicker.setBoundary, jsOrQ]

/-- **C1, amended.**  `time` and `frame` are updated together only in the
additive phase of `update` (which preserves `time = frame / fps` exactly
when `fps ≠ 0`); `checkBoundary` never touches `time`, so a clamping
update breaks the invariant until the next `currentFrame` assignment. -/
theorem c1_time_frame_invariant_amended :
    (∀ (t : FrameTicker) (dt : ℚ), t.fps ≠ 0 →
        t.currentTick.time = t.currentTick.frame / t.fps →
        (t.advance dt).currentTick.time =
          (t.advance dt).currentTick.frame / (t.advance dt).fps) ∧
    (∀ (t : FrameTicker) (b : FrameBoundary),
        ((t.checkBoundary b).1).currentTick.time = t.currentTick.time) := by
  constructor
  · intro t dt h0 h
    rw [FrameTicker.advance_time, FrameTicker.advance_frame, FrameTicker.advance_fps, h]
    field_simp
    ring
  · intro t b
    exact FrameTicker.checkBoundary_time t b

/-- Witness for C1 (amended): concrete instance at `fps = 30`, `dt = 2`. -/
theorem c1_time_frame_invariant_amended_witness :
    ((FrameTicker.create 30).advance 2).currentTick.time =
      ((FrameTicker.create 30).advance 2).currentTick.frame /
        ((FrameTicker.create 30).advance 2).fps :=
  c1_time_frame_invariant_amended.1 (FrameTicker.create 30) 2
    (by norm_num [FrameTicker.create]) (by norm_num [FrameTicker.create])

/-! ## Claim C2 -/

/-- **C2, counterexample.**  The permament-boundary invariant fails on a
reachable state: with boundary `{start: 0, end: 10}`, calling
`start(100, 200)` and then updating lets the *selection* start-clamp move
the frame to `100`, far beyond the permanent end `10`. -/
theorem c2_boundary_invariant_counterexample :
    (runOps (initTicker 1 10)
        [TickerOp.opStart (some 100) (some 200), TickerOp.opUpdate 0]).boundary.endF = some 10 ∧
      ¬(((runOps (initTicker 1 10)
          [TickerOp.opStart (some 100) (some 200), TickerOp.opUpdate 0]).currentFrame : ℚ) < 10) := by
  norm_num [runOps, applyOp, FrameTicker.update, FrameTicker.advance, FrameTicker.checkBoundary,
    FrameTicker.start, FrameTicker.stop, initTicker, FrameTicker.create, FrameTicker.setBoundary,
    jsOrQ, FrameTicker.currentFrame]

/-- **C2, amended.**  For a ticker built by the controller (boundary
`{start: 0, end: E}`, `E ≥ 1`), the boundary bounds `currentFrame` in every
reachable state — `0 ≤ currentFrame` and `currentFrame < E` — provided
every `start(from, to)` call installs its selection inside the permanent
boundary (`GoodOp`). -/
theorem c2_boundary_invariant_amended (fps E : ℚ) (hE : 1 ≤ E) (ops : List TickerOp)
    (hops : ∀ op ∈ ops, GoodOp E op) :
    0 ≤ (runOps (initTicker fps E) ops).currentFrame ∧
      ((runOps (initTicker fps E) ops).currentFrame : ℚ) < E := by
  have hinv : TickerInv E (runOps (initTicker fps E) ops) := by
    apply tickerInv_runOps E hE _ _ ops hops
    refine ⟨rfl, le_refl 0, by show (0:ℚ) < E; linarith, ?_⟩
    intro s hs
    simp [initTicker, FrameTicker.create, FrameTicker.setBoundary] at hs
  obtain ⟨hb, h0, h1, -⟩ := hinv
  constructor
  · exact Int.floor_nonneg.mpr h0
  · calc ((runOps (initTicker fps E) ops).currentFrame : ℚ)
        ≤ (runOps (initTicker fps E) ops).currentTick.frame := Int.floor_le _
      _ < E := h1

/-- Witness for C2 (amended): a concrete in-bounds selection and update. -/
theorem c2_boundary_invariant_amended_witness :
    0 ≤ (runOps (initTicker 30 10)
        [TickerOp.opStart (some 2) (some 5), TickerOp.opUpdate 1]).currentFrame ∧
      ((runOps (initTicker 30 10)
          [TickerOp.opStart (some 2) (some 5), TickerOp.opUpdate 1]).currentFrame : ℚ) < 10 :=
  c2_boundary_invariant_amended 30 10 (by norm_num)
    [TickerOp.opStart (some 2) (some 5), TickerOp.opUpdate 1]
    (by
      intro op hop
      simp only [List.mem_cons, List.not_mem_nil, or_false] at hop
      rcases hop with rfl | rfl
      · norm_num [GoodOp, GoodSel, jsOrQ]
      · simp [GoodOp])

/-! ## Claim C3 -/

/-- **C3.**  With a defined boundary end `E` (positive, beyond the boundary
start), starting at `frame = E - 1` with `rate = 1`, any single `update`
whose elapsed time advances the frame to reach or pass `E`
(`1 ≤ dt * fps`) clamps the frame back to `E - 1` and stops playback
(`rate = 0`). -/
theorem c3_end_crossing_clamps_and_stops (t : FrameTicker) (dt bs E : ℚ)
    (hb : t.boundary = ⟨bs, some E⟩) (hbs : bs < E) (hE : 0 < E)
    (hf : t.currentTick.frame = E - 1) (hr : t.currentTick.rate = 1)
    (hdt : 1 ≤ dt * t.fps) :
    (t.update dt).currentTick.frame = E - 1 ∧ (t.update dt).currentTick.rate = 0 := by
  have hfr1 : (t.advance dt).currentTick.frame = E - 1 + dt * t.fps := by
    rw [FrameTicker.advance_frame, hf, hr]; ring
  have hge : E ≤ (t.advance dt).currentTick.frame := by rw [hfr1]; linarith
  have hrate1 : (t.advance dt).currentTick.rate = 1 := by rw [FrameTicker.advance_rate, hr]
  unfold FrameTicker.update
  rw [hb]
  simp only [FrameTicker.checkBoundary, FrameTicker.stop]
  have hnc1 : ¬(bs ≥ 0 ∧ (t.advance dt).currentTick.frame ≤ bs) := by
    rintro ⟨-, hle⟩; linarith
  rw [if_neg hnc1]
  have hc2 : E ≠ 0 ∧ E ≥ 0 ∧ (t.advance dt).currentTick.frame ≥ E :=
    ⟨ne_of_gt hE, le_of_lt hE, hge⟩
  rw [if_pos hc2]
  rw [if_pos (show (t.advance dt).currentTick.rate > 0 by rw [hrate1]; norm_num)]
  exact ⟨rfl, rfl⟩

/-- Witness for C3: `fps = 1`, boundary `{start: 0, end: 10}`, frame `9`,
rate `1`, `dt = 5`. -/
theorem c3_end_crossing_clamps_and_stops_witness :
    ((runOps (initTicker 1 10) [TickerOp.opStart none none, TickerOp.opSetFrame 9]).update 5).currentTick.frame = 9 ∧
      ((runOps (initTicker 1 10) [TickerOp.opStart none none, TickerOp.opSetFrame 9]).update 5).currentTick.rate = 0 := by
  have h := c3_end_crossing_clamps_and_stops
    (runOps (initTicker 1 10) [TickerOp.opStart none none, TickerOp.opSetFrame 9]) 5 0 10
    (by norm_num [runOps, applyOp, FrameTicker.start, FrameTicker.setCurrentFrame,
      FrameTicker.checkBoundary, FrameTicker.stop, initTicker, FrameTicker.create,
      FrameTicker.setBoundary, jsOrQ])
    (by norm_num) (by norm_num)
    (by norm_num [runOps, applyOp, FrameTicker.start, FrameTicker.setCurrentFrame,
      FrameTicker.checkBoundary, FrameTicker.stop, initTicker, FrameTicker.create,
      FrameTicker.setBoundary, jsOrQ])
    (by norm_num [runOps, applyOp, FrameTicker.start, FrameTicker.setCurrentFrame,
      FrameTicker.checkBoundary, FrameTicker.stop, initTicker, FrameTicker.create,
      FrameTicker.setBoundary, jsOrQ])
    (by norm_num [runOps, applyOp, FrameTicker.start, FrameTicker.setCurrentFrame,
      FrameTicker.checkBoundary, FrameTicker.stop, initTicker, FrameTicker.create,
      FrameTicker.setBoundary, jsOrQ])
  convert h using 2 <;> norm_num

/-! ## Claim C6 -/

/-- **C6.**  Assigning `v` to `currentFrame` stores exactly `v` subject only
to the permanent-boundary clamp being re-applied, recomputes `time` as
`v / fps`, and clears the transient selection; a subsequent `update` is then
bounded only by the permanent boundary `{start: 0, end: E}` — its resulting
frame is the permanent clamp of the advanced position, with no reference to
any prior `start(from, to)` selection. -/
theorem c6_seek_clears_selection (t : FrameTicker) (v E : ℚ)
    (hb : t.boundary = ⟨0, some E⟩) (hE : 1 ≤ E) :
    (t.setCurrentFrame v).selection = none ∧
      (t.setCurrentFrame v).currentTick.time = v / t.fps ∧
      (t.setCurrentFrame v).currentTick.frame =
        (if v ≤ 0 then 0 else if E ≤ v then E - 1 else v) ∧
      ∀ dt : ℚ,
        ((t.setCurrentFrame v).update dt).currentTick.frame =
          (if (t.setCurrentFrame v).currentTick.frame
                + dt * t.fps * (t.setCurrentFrame v).currentTick.rate ≤ 0 then 0
           else if E ≤ (t.setCurrentFrame v).currentTick.frame
                + dt * t.fps * (t.setCurrentFrame v).currentTick.rate then E - 1
           else (t.setCurrentFrame v).currentTick.frame
                + dt * t.fps * (t.setCurrentFrame v).currentTick.rate) := by
  have hsel : (t.setCurrentFrame v).selection = none := by
    unfold FrameTicker.setCurrentFrame
    exact FrameTicker.checkBoundary_selection_none _ _ rfl
  have hbnd : (t.setCurrentFrame v).boundary = ⟨0, some E⟩ := by
    unfold FrameTicker.setCurrentFrame
    rw [FrameTicker.checkBoundary_boundary]
    exact hb
  have hfps : (t.setCurrentFrame v).fps = t.fps := by
    unfold FrameTicker.setCurrentFrame
    rw [FrameTicker.checkBoundary_fps]
  have htime : (t.setCurrentFrame v).currentTick.time = v / t.fps := by
    unfold FrameTicker.setCurrentFrame
    rw [FrameTicker.checkBoundary_time]
  have hframe : (t.setCurrentFrame v).currentTick.frame =
      (if v ≤ 0 then 0 else if E ≤ v then E - 1 else v) := by
    have h1 := FrameTicker.checkBoundary_frame_perm_eq { t with currentTick := { t.currentTick with time := v / t.fps, frame := v }, selection := none } E hE
    unfold FrameTicker.setCurrentFrame
    dsimp only at h1 ⊢
    rw [hb] at h1 ⊢
    exact h1
  refine ⟨hsel, htime, hframe, ?_⟩
  intro dt
  unfold FrameTicker.update
  have hseladv : ((t.setCurrentFrame v).advance dt).selection = none := by
    rw [FrameTicker.advance_selection]; exact hsel
  have h2 : ((FrameTicker.checkBoundary ((t.setCurrentFrame v).advance dt)
      ((t.setCurrentFrame v).advance dt).boundary).1).selection = none :=
    FrameTicker.checkBoundary_selection_none _ _ hseladv
  rw [FrameTicker.advance_boundary] at h2
  simp only [h2]
  rw [hbnd]
  rw [FrameTicker.checkBoundary_frame_perm_eq _ E hE]
  rw [FrameTicker.advance_frame, hfps]

/-- Witness for C6: seek to `20` with boundary `{start: 0, end: 10}`
(`fps = 30`): selection cleared, `time = 20/30`, frame clamped to `9`. -/
theorem c6_seek_clears_selection_witness :
    ((initTicker 30 10).setCurrentFrame 20).selection = none ∧
      ((initTicker 30 10).setCurrentFrame 20).currentTick.time = 20 / 30 ∧
      ((initTicker 30 10).setCurrentFrame 20).currentTick.frame = 9 := by
  obtain ⟨h1, h2, h3, -⟩ :=
    c6_seek_clears_selection (initTicker 30 10) 20 10 rfl (by norm_num)
  refine ⟨h1, ?_, ?_⟩
  · rw [h2]
    norm_num [initTicker, FrameTicker.create, FrameTicker.setBoundary]
  · rw [h3]
    norm_num

/-! ## Claim C10 -/

/-- **C10.**  A boundary `end` equal to `0` is treated as if no end were
defined: (1) `checkBoundary` with `end = 0` clamps only at the start edge
and can stop only backward motion; (2) `start(from, to)` with the permanent
boundary's end undefined or `0` (and `to` absent or `0`) installs a
selection whose end is `0`; (3) with such a selection (and an inactive
permanent end), an `update` at any forward rate never stops: the rate and
the selection survive unchanged. -/
theorem c10_zero_end_is_inactive :
    (∀ (t : FrameTicker) (b : FrameBoundary), b.endF = some 0 →
        ((t.checkBoundary b).1).currentTick.frame =
          (if b.start ≥ 0 ∧ t.currentTick.frame ≤ b.start then b.start
           else t.currentTick.frame) ∧
        ((t.checkBoundary b).2 = true → t.currentTick.rate < 0)) ∧
    (∀ (t : FrameTicker) (fromArg toArg : Option ℚ),
        (t.boundary.endF = none ∨ t.boundary.endF = some 0) →
        (toArg = none ∨ toArg = some 0) →
        (fromArg.isSome ∨ toArg.isSome) →
        (t.start fromArg toArg).selection = some ⟨jsOrQ fromArg 0, 0⟩) ∧
    (∀ (t : FrameTicker) (dt : ℚ) (sel : Selection),
        t.selection = some sel → sel.endF = 0 →
        (t.boundary.endF = none ∨ t.boundary.endF = some 0) →
        0 ≤ t.currentTick.rate →
        (t.update dt).currentTick.rate = t.currentTick.rate ∧
          (t.update dt).selection = some sel) := by
  refine ⟨?_, ?_, ?_⟩
  · intro t b hb
    rcases b with ⟨bs, eo⟩
    simp only at hb
    subst hb
    simp only [FrameTicker.checkBoundary, FrameTicker.stop, ne_eq, not_true_eq_false,
      false_and, if_false]
    split_ifs with h1 h2 <;> dsimp only <;>
      refine ⟨rfl, ?_⟩ <;> intro hflag
    · exact h2
    · simp at hflag
    · simp at hflag
  · intro t fromArg toArg hbe hto hfg
    unfold FrameTicker.start
    rw [if_pos hfg]
    have h0 : jsOrQ t.boundary.endF 0 = 0 := by
      rcases hbe with h | h <;> rw [h] <;> simp [jsOrQ]
    have h1 : jsOrQ toArg (jsOrQ t.boundary.endF 0) = 0 := by
      rw [h0]
      rcases hto with h | h <;> rw [h] <;> simp [jsOrQ]
    simp only [h1]
  · intro t dt sel hsel he hbe hr
    unfold FrameTicker.update
    have hadvr : 0 ≤ ((t.advance dt)).currentTick.rate := by
      rw [FrameTicker.advance_rate]; exact hr
    have hbe' : ((t.advance dt)).boundary.endF = none ∨
        ((t.advance dt)).boundary.endF = some 0 := by
      rw [FrameTicker.advance_boundary]; exact hbe
    have h1 := FrameTicker.checkBoundary_inactive_end (t.advance dt) (t.advance dt).boundary
      hadvr (by rcases hbe' with h | h <;> [exact Or.inl h; exact Or.inr h])
    rw [FrameTicker.advance_boundary] at h1
    have ht1sel : ((FrameTicker.checkBoundary (t.advance dt) t.boundary).1).selection =
        some sel := by
      rw [h1.2, FrameTicker.advance_selection]; exact hsel
    have ht1rate : ((FrameTicker.checkBoundary (t.advance dt) t.boundary).1).currentTick.rate =
        t.currentTick.rate := by
      rw [h1.1, FrameTicker.advance_rate]
    simp only [ht1sel]
    have h2 := FrameTicker.checkBoundary_inactive_end
      ((FrameTicker.checkBoundary (t.advance dt) t.boundary).1)
      ⟨sel.start, some sel.endF⟩ (by rw [ht1rate]; exact hr)
      (by right; simp only [he])
    exact ⟨by rw [h2.1, ht1rate], by rw [h2.2, ht1sel]⟩

/-- Witness for C10: with boundary `{start: 0, end: 0}`, `start(5)` installs
the selection `{start: 5, end: 0}`. -/
theorem c10_zero_end_is_inactive_witness :
    ((initTicker 1 0).start (some 5) none).selection = some ⟨5, 0⟩ := by
  have h := c10_zero_end_is_inactive.2.1 (initTicker 1 0) (some 5) none
    (Or.inr rfl) (Or.inl rfl) (Or.inl rfl)
  rw [h]
  norm_num [jsOrQ]

/-! ## LRUCache lemmas -/

namespace LRUCache

variable {K V : Type} [DecidableEq K]

theorem hasKey_iff_mem (c : LRUCache K V) (k : K) :
    c.hasKey k = true ↔ k ∈ c.entries.map Prod.fst := by
  simp only [hasKey, List.any_eq_true, List.mem_map, decide_eq_true_eq]

theorem hasKey_false_iff (c : LRUCache K V) (k : K) :
    c.hasKey k = false ↔ ∀ p ∈ c.entries, ¬(p.1 = k) := by
  simp only [hasKey, List.any_eq_false, decide_eq_true_eq]

theorem getVal?_eq_none_of_hasKey_false (c : LRUCache K V) (k : K)
    (h : c.hasKey k = false) : c.getVal? k = none := by
  unfold getVal?
  have hf : c.entries.find? (fun p => decide (p.1 = k)) = none :=
    List.find?_eq_none.mpr (by
      intro x hx
      simp [(hasKey_false_iff c k).mp h x hx])
  rw [hf]
  rfl

/-- `find?` on a keyless prefix followed by the fresh entry. -/
theorem find?_key_append (l : List (K × V)) (k : K) (v : V)
    (h : ∀ p ∈ l, ¬(p.1 = k)) :
    (l ++ [(k, v)]).find? (fun p => decide (p.1 = k)) = some (k, v) := by
  rw [List.find?_append]
  have hnone : l.find? (fun p => decide (p.1 = k)) = none :=
    List.find?_eq_none.mpr (by intro x hx; simp [h x hx])
  rw [hnone]
  simp [List.find?]

/-- After `set k v`, looking up `k` yields `v` (all three branches append the
fresh entry behind a `k`-free prefix). -/
theorem getVal?_set_self (c : LRUCache K V) (k : K) (v : V) :
    (c.set k v).getVal? k = some v := by
  unfold set getVal?
  split_ifs with h1 h2
  · rw [find?_key_append]
    · rfl
    · intro p hp
      rw [List.mem_filter] at hp
      simpa using hp.2
  · have hfree : ∀ p ∈ c.entries, ¬(p.1 = k) := (hasKey_false_iff c k).mp
      (by rwa [Bool.not_eq_true] at h1)
    rcases hh : c.entries.head? with _ | p
    · simp only [hh]
      rw [find?_key_append _ _ _ hfree]
      rfl
    · simp only [hh]
      rw [find?_key_append]
      · rfl
      · intro p' hp'
        rw [List.mem_filter] at hp'
        exact hfree p' hp'.1
  · have hfree : ∀ p ∈ c.entries, ¬(p.1 = k) := (hasKey_false_iff c k).mp
      (by rwa [Bool.not_eq_true] at h1)
    rw [find?_key_append _ _ _ hfree]
    rfl

theorem hasKey_of_getVal? (c : LRUCache K V) (k : K) (v : V)
    (h : c.getVal? k = some v) : c.hasKey k = true := by
  unfold getVal? at h
  rcases hf : c.entries.find? (fun p => decide (p.1 = k)) with _ | p
  · rw [hf] at h; cases h
  · have hmem := List.mem_of_find?_eq_some hf
    have hkey := List.find?_some hf
    rw [hasKey_iff_mem]
    exact List.mem_map.mpr ⟨p, hmem, by simpa using hkey⟩

theorem hasKey_set_self (c : LRUCache K V) (k : K) (v : V) :
    (c.set k v).hasKey k = true :=
  hasKey_of_getVal? _ k v (getVal?_set_self c k v)

/-- `set` grows the entry list by at most one. -/
theorem length_set_le (c : LRUCache K V) (k : K) (v : V) :
    (c.set k v).entries.length ≤ c.entries.length + 1 := by
  unfold set
  split_ifs with h1 h2
  · simp only [List.length_append, List.length_cons, List.length_nil]
    have := List.length_filter_le (fun p => !(decide (p.1 = k))) c.entries
    omega
  · rcases hh : c.entries.head? with _ | p <;> simp only [hh]
    · simp
    · simp only [List.length_append, List.length_cons, List.length_nil]
      have := List.length_filter_le (fun q => !(decide (q.1 = p.1))) c.entries
      omega
  · simp

/-- Without an eviction (cache strictly under capacity, or key update),
`set` keeps every present key. -/
theorem hasKey_set_preserved (c : LRUCache K V) (k k' : K) (v : V)
    (hcap : c.entries.length < c.maxSize ∨ c.hasKey k = true)
    (h : c.hasKey k' = true) : (c.set k v).hasKey k' = true := by
  by_cases hkk : k' = k
  · subst hkk
    exact hasKey_set_self c k' v
  · rw [hasKey_iff_mem] at h ⊢
    unfold set
    split_ifs with h1 h2
    · rw [List.map_append, List.mem_append]
      left
      obtain ⟨p, hp, hpk⟩ := List.mem_map.mp h
      exact List.mem_map.mpr ⟨p, List.mem_filter.mpr ⟨hp, by rw [hpk]; simp [hkk]⟩, hpk⟩
    · rcases hcap with hlt | htrue
      · omega
      · exact absurd htrue h1
    · rw [List.map_append, List.mem_append]
      left
      exact h

end LRUCache

/-! ## Claim C4 -/

/-- **C4.**  (1) For a cache holding exactly `maxSize` distinct keys, `set`
with a fresh key evicts exactly the least-recently-used entry (the head of
the insertion-ordered map): the head's key is gone, the new key and every
other key are present, and the size stays at capacity.  (2) A `get` hit
promotes the key to most-recently-used (last position).  (3) Capacities are
per-cache and configurable at construction (nonzero values, by JS `||`),
and (4) default to 1000 frames / 2000 thumbnails. -/
theorem c4_lru_eviction :
    (∀ (c : LRUCache (String × ℤ) FrameImage) (k : String × ℤ) (v : FrameImage)
        (p : (String × ℤ) × FrameImage),
      (c.entries.map Prod.fst).Nodup → c.entries.length = c.maxSize →
      c.hasKey k = false → c.entries.head? = some p →
      (c.set k v).hasKey p.1 = false ∧
        (c.set k v).hasKey k = true ∧
        (∀ k', k' ∈ c.entries.map Prod.fst → k' ≠ p.1 → (c.set k v).hasKey k' = true) ∧
        (c.set k v).entries.length = c.maxSize) ∧
    (∀ (c : LRUCache (String × ℤ) FrameImage) (k : String × ℤ) (v : FrameImage),
      (c.get k).1 = some v → ((c.get k).2.entries.getLast?.map Prod.fst) = some k) ∧
    (∀ (mf mt : Nat) (mc : Option Nat), mf ≠ 0 → mt ≠ 0 →
      (FrameStore.create (some ⟨some mf, some mt, mc⟩)).frameCache.maxSize = mf ∧
        (FrameStore.create (some ⟨some mf, some mt, mc⟩)).thumbnailCache.maxSize = mt) ∧
    ((FrameStore.create none).frameCache.maxSize = 1000 ∧
      (FrameStore.create none).thumbnailCache.maxSize = 2000) := by
  refine ⟨?_, ?_, ?_, by constructor <;> rfl⟩
  · intro c k v p hnd hlen hfresh hhead
    have hmem : c.maxSize ≤ c.entries.length := le_of_eq hlen.symm
    have hkp : p.1 ≠ k := by
      intro h
      have hk : c.hasKey k = true := by
        rw [LRUCache.hasKey_iff_mem, ← h]
        exact List.mem_map.mpr ⟨p, List.mem_of_mem_head? hhead, rfl⟩
      rw [hfresh] at hk
      cases hk
    obtain ⟨tl, hentries⟩ : ∃ tl, c.entries = p :: tl := by
      rcases he : c.entries with _ | ⟨q, tl⟩
      · rw [he] at hhead; cases hhead
      · rw [he] at hhead
        simp only [List.head?_cons, Option.some.injEq] at hhead
        exact ⟨tl, by rw [hhead]⟩
    have hpnotin : p.1 ∉ tl.map Prod.fst := by
      rw [hentries] at hnd
      exact (List.nodup_cons.mp (by simpa using hnd)).1
    have hfilter : c.entries.filter (fun q => !(decide (q.1 = p.1))) = tl := by
      rw [hentries, List.filter_cons]
      have hp : (!(decide (p.1 = p.1))) = false := by simp
      rw [hp]
      simp only [Bool.false_eq_true, if_false]
      apply List.filter_eq_self.mpr
      intro q hq
      have hne : q.1 ≠ p.1 := by
        intro hqp
        exact hpnotin (List.mem_map.mpr ⟨q, hq, hqp⟩)
      simp [hne]
    have hset : (c.set k v).entries = tl ++ [(k, v)] := by
      unfold LRUCache.set
      rw [if_neg (by rw [hfresh]; simp), if_pos hmem, hhead]
      show List.filter (fun q => !(decide (q.1 = p.1))) c.entries ++ [(k, v)] = tl ++ [(k, v)]
      rw [hfilter]
    refine ⟨?_, LRUCache.hasKey_set_self c k v, ?_, ?_⟩
    · rw [LRUCache.hasKey_false_iff, hset]
      intro q hq
      rw [List.mem_append] at hq
      rcases hq with hq | hq
      · exact fun hqp => hpnotin (List.mem_map.mpr ⟨q, hq, hqp⟩)
      · rw [List.mem_singleton] at hq
        subst hq
        exact Ne.symm hkp
    · intro k' hk' hkp'
      rw [LRUCache.hasKey_iff_mem, hset, List.map_append, List.mem_append]
      left
      rw [hentries, List.map_cons, List.mem_cons] at hk'
      rcases hk' with h | h
      · exact absurd h hkp'
      · exact h
    · rw [hset, List.length_append, List.length_cons, List.length_nil]
      rw [hentries] at hlen
      rw [List.length_cons] at hlen
      omega
  · intro c k v h
    rcases hg : c.getVal? k with _ | v'
    · unfold LRUCache.get at h
      rw [hg] at h
      cases h
    · unfold LRUCache.get
      rw [hg]
      simp [List.getLast?_concat]
  · intro mf mt mc h1 h2
    constructor <;> simp [FrameStore.create, jsOrNat, h1, h2]

/-- Witness for C4: a capacity-2 cache holding keys `("a",0)`, `("b",0)`
(in LRU order); inserting `("c",0)` evicts exactly `("a",0)`. -/
theorem c4_lru_eviction_witness :
    ((⟨[(("a", 0), 1), (("b", 0), 2)], 2⟩ :
        LRUCache (String × ℤ) FrameImage).set ("c", 0) 3).hasKey ("a", 0) = false ∧
      ((⟨[(("a", 0), 1), (("b", 0), 2)], 2⟩ :
        LRUCache (String × ℤ) FrameImage).set ("c", 0) 3).hasKey ("c", 0) = true ∧
      ((⟨[(("a", 0), 1), (("b", 0), 2)], 2⟩ :
        LRUCache (String × ℤ) FrameImage).set ("c", 0) 3).hasKey ("b", 0) = true ∧
      ((⟨[(("a", 0), 1), (("b", 0), 2)], 2⟩ :
        LRUCache (String × ℤ) FrameImage).set ("c", 0) 3).entries.length = 2 := by
  obtain ⟨h1, h2, h3, h4⟩ := c4_lru_eviction.1
    ⟨[(("a", 0), 1), (("b", 0), 2)], 2⟩ ("c", 0) 3 (("a", 0), 1)
    (by decide) (by decide) (by decide) (by decide)
  exact ⟨h1, h2, h3 ("b", 0) (by decide) (by decide), h4⟩

/-! ## Claim C8 -/

/-- **C8, counterexample.**  `setAsset` with an asset whose metadata has
`fps = 0` and `duration = 0` does not fail and does not leave the prior
state: the controller's ticker (previously at `fps = 30`) is replaced by a
freshly constructed `FrameTicker` at `fps = 0` — there is no
`InvalidAssetError` and no `fps > 0` check anywhere in the source. -/
theorem c8_invalid_asset_counterexample :
    VideoPlayerController.setAsset ⟨some (initTicker 30 300)⟩ (some ⟨0, 0⟩) ≠
      (⟨some (initTicker 30 300)⟩ : VideoPlayerController) ∧
      ((VideoPlayerController.setAsset ⟨some (initTicker 30 300)⟩
          (some ⟨0, 0⟩)).frameTicker.map (fun t => t.fps)) = some 0 := by
  constructor
  · intro h
    have h2 := congrArg
      (fun c : VideoPlayerController => c.frameTicker.map (fun t => t.fps)) h
    simp only [VideoPlayerController.setAsset, FrameTicker.create, FrameTicker.setBoundary,
      initTicker, Option.map_some] at h2
    norm_num at h2
  · simp [VideoPlayerController.setAsset, FrameTicker.create, FrameTicker.setBoundary]

/-- **C8, amended.**  `setAsset` performs no validation at all: every
non-null asset — including one with `fps = 0` or `duration = 0` — is
accepted, and the controller's ticker is unconditionally replaced by a
fresh zeroed `FrameTicker` at the asset's fps with permanent boundary
`{start: 0, end: floor(duration * fps)}`; `FrameTicker` construction never
fails. -/
theorem c8_invalid_asset_amended (c : VideoPlayerController) (a : AssetMetadata) :
    ∃ t, (c.setAsset (some a)).frameTicker = some t ∧
      t.fps = a.fps ∧
      t.boundary = ⟨0, some ((⌊a.duration * a.fps⌋ : ℤ) : ℚ)⟩ ∧
      t.currentTick = ⟨0, 0, 0, a.fps⟩ ∧
      t.selection = none :=
  ⟨_, rfl, rfl, rfl, rfl, rfl⟩

/-! ## Claim C9 -/

/-- **C9.**  `loadFrameImmediate` contract, with decode outcomes supplied
by the `capture` oracle (`none` = seek/capture failure): an unknown source
fails (null result) with the store untouched; a capture failure fails with
no cache entry added (only the seek is logged); success seeks the source
to `frameNumber / fps`, stores the decoded frame in the cache under the
frame's key, and returns it.  All failures are returned, not thrown. -/
theorem c9_loadFrameImmediate_contract (s : FrameStore)
    (capture : String → ℤ → Option FrameImage) (videoId : String) (n : ℤ) (fps : ℚ) :
    (videoId ∉ s.videoElements →
      s.loadFrameImmediate capture videoId n fps = (none, s)) ∧
    (videoId ∈ s.videoElements → capture videoId n = none →
      (s.loadFrameImmediate capture videoId n fps).1 = none ∧
      (s.loadFrameImmediate capture videoId n fps).2.frameCache = s.frameCache ∧
      (s.loadFrameImmediate capture videoId n fps).2.seeks =
        s.seeks ++ [(videoId, (n : ℚ) / fps)]) ∧
    (∀ f, videoId ∈ s.videoElements → capture videoId n = some f →
      (s.loadFrameImmediate capture videoId n fps).1 = some f ∧
      (s.loadFrameImmediate capture videoId n fps).2.seeks =
        s.seeks ++ [(videoId, (n : ℚ) / fps)] ∧
      (s.loadFrameImmediate capture videoId n fps).2.frameCache.getVal?
        (frameKey videoId n) = some f) := by
  refine ⟨?_, ?_, ?_⟩
  · intro h
    unfold FrameStore.loadFrameImmediate
    rw [if_neg h]
  · intro h hc
    unfold FrameStore.loadFrameImmediate
    rw [if_pos h]
    simp [hc]
  · intro f h hc
    unfold FrameStore.loadFrameImmediate
    rw [if_pos h]
    simp [hc, LRUCache.getVal?_set_self]

/-- Witness for C9: a store with source `"v"` bound and an oracle that
decodes frame 10 to image `7`. -/
theorem c9_loadFrameImmediate_contract_witness :
    (({ FrameStore.create none with videoElements := ["v"] }).loadFrameImmediate
        (fun _ _ => some 7) "v" 10 30).1 = some 7 ∧
      (({ FrameStore.create none with videoElements := ["v"] }).loadFrameImmediate
          (fun _ _ => some 7) "v" 10 30).2.frameCache.getVal? (frameKey "v" 10) = some 7 := by
  obtain ⟨-, -, h3⟩ := c9_loadFrameImmediate_contract
    { FrameStore.create none with videoElements := ["v"] } (fun _ _ => some 7) "v" 10 30
  obtain ⟨ha, -, hc⟩ := h3 7 (by simp) rfl
  exact ⟨ha, hc⟩

/-! ## Priority-queue lemmas -/

namespace FrameStore

/-- The duplicate check in `addToQueue` is exactly key membership. -/
theorem queue_any_iff (q : List FrameRequest) (r : FrameRequest) :
    (q.any (fun req => decide (req.videoId = r.videoId) &&
        decide (req.frameNumber = r.frameNumber))) = true ↔
      (r.videoId, r.frameNumber) ∈ queueKeys q := by
  simp [queueKeys, List.any_eq_true, List.mem_map, Bool.and_eq_true, decide_eq_true_eq,
    Prod.ext_iff]

theorem addToQueue_of_mem (s : FrameStore) (r : FrameRequest)
    (h : (r.videoId, r.frameNumber) ∈ queueKeys s.priorityQueue) :
    s.addToQueue r = s := by
  unfold addToQueue
  rw [if_pos ((queue_any_iff s.priorityQueue r).mpr h)]

theorem addToQueue_frameCache (s : FrameStore) (r : FrameRequest) :
    (s.addToQueue r).frameCache = s.frameCache := by
  unfold addToQueue
  split_ifs <;> rfl

theorem addToQueue_videoElements (s : FrameStore) (r : FrameRequest) :
    (s.addToQueue r).videoElements = s.videoElements := by
  unfold addToQueue
  split_ifs <;> rfl

/-- Under the 1000-entry bound, enqueueing a fresh key is (a permutation
of) appending the request. -/
theorem addToQueue_perm_of_not_mem (s : FrameStore) (r : FrameRequest)
    (h : (r.videoId, r.frameNumber) ∉ queueKeys s.priorityQueue)
    (hlen : s.priorityQueue.length < 1000) :
    List.Perm (s.addToQueue r).priorityQueue (s.priorityQueue ++ [r]) ∧
      (s.addToQueue r).priorityQueue.length = s.priorityQueue.length + 1 := by
  unfold addToQueue
  rw [if_neg (fun hc => h ((queue_any_iff s.priorityQueue r).mp hc))]
  have hlen2 : ((s.priorityQueue ++ [r]).mergeSort
      (fun a b => decide (b.priority ≤ a.priority))).length ≤ 1000 := by
    rw [List.length_mergeSort, List.length_append]
    simp only [List.length_singleton]
    omega
  simp only [List.take_of_length_le hlen2]
  constructor
  · exact List.mergeSort_perm _ _
  · rw [List.length_mergeSort, List.length_append, List.length_singleton]

/-- `addToQueue` preserves key uniqueness (with or without truncation). -/
theorem addToQueue_uniq (s : FrameStore) (r : FrameRequest)
    (h : QueueUniq s.priorityQueue) : QueueUniq (s.addToQueue r).priorityQueue := by
  unfold addToQueue
  split_ifs with hc
  · exact h
  · have hnotmem : (r.videoId, r.frameNumber) ∉ queueKeys s.priorityQueue :=
      fun hm => hc ((queue_any_iff s.priorityQueue r).mpr hm)
    have happ : (queueKeys (s.priorityQueue ++ [r])).Nodup := by
      unfold QueueUniq at h
      unfold queueKeys at h ⊢
      rw [List.map_append]
      rw [List.nodup_append]
      refine ⟨h, List.nodup_singleton _, ?_⟩
      intro x hx
      simp only [List.map_cons, List.map_nil, List.mem_singleton]
      intro hxr
      subst hxr
      exact hnotmem hx
    have hperm : List.Perm
        (queueKeys ((s.priorityQueue ++ [r]).mergeSort
          (fun a b => decide (b.priority ≤ a.priority))))
        (queueKeys (s.priorityQueue ++ [r])) :=
      (List.mergeSort_perm _ _).map _
    have hsorted : (queueKeys ((s.priorityQueue ++ [r]).mergeSort
        (fun a b => decide (b.priority ≤ a.priority)))).Nodup :=
      hperm.nodup_iff.mpr happ
    show (queueKeys (((s.priorityQueue ++ [r]).mergeSort
        (fun a b => decide (b.priority ≤ a.priority))).take 1000)).Nodup
    unfold queueKeys at hsorted ⊢
    exact List.Nodup.sublist ((List.take_sublist _ _).map _) hsorted

/-- Key membership after a fresh-key enqueue (no truncation). -/
theorem addToQueue_keys (s : FrameStore) (r : FrameRequest)
    (hlen : s.priorityQueue.length < 1000) (key : String × ℤ) :
    key ∈ queueKeys (s.addToQueue r).priorityQueue ↔
      key ∈ queueKeys s.priorityQueue ∨ key = (r.videoId, r.frameNumber) := by
  by_cases hmem : (r.videoId, r.frameNumber) ∈ queueKeys s.priorityQueue
  · rw [addToQueue_of_mem s r hmem]
    constructor
    · exact Or.inl
    · rintro (h | rfl)
      · exact h
      · exact hmem
  · obtain ⟨hperm, -⟩ := addToQueue_perm_of_not_mem s r hmem hlen
    rw [show queueKeys (s.addToQueue r).priorityQueue =
        (s.addToQueue r).priorityQueue.map (fun x => (x.videoId, x.frameNumber)) from rfl]
    rw [List.Perm.mem_iff (hperm.map _)]
    show key ∈ queueKeys (s.priorityQueue ++ [r]) ↔ _
    unfold queueKeys
    rw [List.map_append, List.mem_append]
    simp

theorem getFrame_hit (s : FrameStore) (vid : String) (n now : ℤ) (v : FrameImage)
    (h : s.frameCache.getVal? (frameKey vid n) = some v) :
    (s.getFrame vid n now).1 = some v ∧
      (s.getFrame vid n now).2.priorityQueue = s.priorityQueue := by
  unfold getFrame LRUCache.get
  simp only [h]
  exact ⟨trivial, trivial⟩

theorem getFrame_miss (s : FrameStore) (vid : String) (n now : ℤ)
    (h : s.frameCache.hasKey (frameKey vid n) = false) :
    (s.getFrame vid n now).1 = none ∧
      (s.getFrame vid n now).2 =
        s.addToQueue { videoId := vid, frameNumber := n, priority := 1, timestamp := now } := by
  have hg := LRUCache.getVal?_eq_none_of_hasKey_false _ _ h
  unfold getFrame LRUCache.get
  simp only [hg]
  exact ⟨trivial, trivial⟩

/-- `getFrame` either leaves the queue alone (hit) or enqueues via
`addToQueue` (miss). -/
theorem getFrame_queue_cases (s : FrameStore) (vid : String) (n now : ℤ) :
    (s.getFrame vid n now).2.priorityQueue = s.priorityQueue ∨
      (s.getFrame vid n now).2 =
        s.addToQueue { videoId := vid, frameNumber := n, priority := 1, timestamp := now } := by
  unfold getFrame LRUCache.get
  rcases hg : s.frameCache.getVal? (frameKey vid n) with _ | v
  · simp only [hg]
    right
    trivial
  · simp only [hg]
    left
    trivial

/-- Any fold of `addToQueue` preserves key uniqueness. -/
theorem foldl_addToQueue_uniq (req : ℤ → FrameRequest) (L : List ℤ) :
    ∀ s : FrameStore, QueueUniq s.priorityQueue →
      QueueUniq ((L.foldl (fun st f => st.addToQueue (req f)) s)).priorityQueue := by
  induction L with
  | nil => exact fun s h => h
  | cons f L ih =>
      intro s h
      rw [List.foldl_cons]
      exact ih _ (addToQueue_uniq s (req f) h)

/-- The enqueue fold of `prioritize`, characterised: starting from a
duplicate-free queue with room for the whole range, it keeps uniqueness,
adds exactly the keys of the range, and grows the queue by exactly the
number of genuinely new frame numbers. -/
theorem foldl_addToQueue_spec (videoId : String) (req : ℤ → FrameRequest)
    (hvid : ∀ f, (req f).videoId = videoId) (hnum : ∀ f, (req f).frameNumber = f)
    (L : List ℤ) :
    L.Nodup → ∀ s : FrameStore, QueueUniq s.priorityQueue →
      s.priorityQueue.length + L.length ≤ 1000 →
      QueueUniq ((L.foldl (fun st f => st.addToQueue (req f)) s)).priorityQueue ∧
      (∀ key, key ∈ queueKeys ((L.foldl (fun st f => st.addToQueue (req f)) s)).priorityQueue ↔
        key ∈ queueKeys s.priorityQueue ∨ ∃ f ∈ L, key = (videoId, f)) ∧
      ((L.foldl (fun st f => st.addToQueue (req f)) s)).priorityQueue.length =
        s.priorityQueue.length +
          (L.filter (fun f => !(decide ((videoId, f) ∈ queueKeys s.priorityQueue)))).length := by
  induction L with
  | nil =>
      intro _ s hu hlen
      refine ⟨hu, fun key => by simp, by simp⟩
  | cons f L ih =>
      intro hnd s hu hlen
      obtain ⟨hf_notin, hndL⟩ := List.nodup_cons.mp hnd
      have hkey : ((req f).videoId, (req f).frameNumber) = (videoId, f) := by
        rw [hvid, hnum]
      rw [List.length_cons] at hlen
      by_cases hmem : (videoId, f) ∈ queueKeys s.priorityQueue
      · have heq : s.addToQueue (req f) = s :=
          addToQueue_of_mem s (req f) (by rw [hkey]; exact hmem)
        rw [List.foldl_cons, heq]
        obtain ⟨ih1, ih2, ih3⟩ := ih hndL s hu (by omega)
        refine ⟨ih1, ?_, ?_⟩
        · intro key
          rw [ih2 key]
          constructor
          · rintro (h | ⟨f', hf', rfl⟩)
            · exact Or.inl h
            · exact Or.inr ⟨f', List.mem_cons_of_mem f hf', rfl⟩
          · rintro (h | ⟨f', hf', rfl⟩)
            · exact Or.inl h
            · rcases List.mem_cons.mp hf' with rfl | hf'
              · exact Or.inl hmem
              · exact Or.inr ⟨f', hf', rfl⟩
        · rw [ih3, List.filter_cons]
          have hc : (!(decide ((videoId, f) ∈ queueKeys s.priorityQueue))) = false := by
            simp [hmem]
          rw [hc]
          simp
      · have hlen1 : s.priorityQueue.length < 1000 := by omega
        obtain ⟨hperm, hlenq⟩ :=
          addToQueue_perm_of_not_mem s (req f) (by rw [hkey]; exact hmem) hlen1
        have hu1 : QueueUniq (s.addToQueue (req f)).priorityQueue :=
          addToQueue_uniq s (req f) hu
        obtain ⟨ih1, ih2, ih3⟩ := ih hndL (s.addToQueue (req f)) hu1 (by rw [hlenq]; omega)
        rw [List.foldl_cons]
        refine ⟨ih1, ?_, ?_⟩
        · intro key
          rw [ih2 key, addToQueue_keys s (req f) hlen1 key, hkey]
          constructor
          · rintro ((h | rfl) | ⟨f', hf', rfl⟩)
            · exact Or.inl h
            · exact Or.inr ⟨f, List.mem_cons_self f L, rfl⟩
            · exact Or.inr ⟨f', List.mem_cons_of_mem f hf', rfl⟩
          · rintro (h | ⟨f', hf', rfl⟩)
            · exact Or.inl (Or.inl h)
            · rcases List.mem_cons.mp hf' with rfl | hf'
              · exact Or.inl (Or.inr rfl)
              · exact Or.inr ⟨f', hf', rfl⟩
        · rw [ih3, hlenq]
          have hfiltereq :
              L.filter (fun f' =>
                !(decide ((videoId, f') ∈ queueKeys (s.addToQueue (req f)).priorityQueue))) =
              L.filter (fun f' =>
                !(decide ((videoId, f') ∈ queueKeys s.priorityQueue))) := by
            apply List.filter_congr
            intro f' hf'
            have hne : f' ≠ f := fun h => hf_notin (h ▸ hf')
            have hiff : (videoId, f') ∈ queueKeys (s.addToQueue (req f)).priorityQueue ↔
                (videoId, f') ∈ queueKeys s.priorityQueue := by
              rw [addToQueue_keys s (req f) hlen1, hkey]
              constructor
              · rintro (h | h)
                · exact h
                · exact absurd (Prod.ext_iff.mp h).2 hne
              · exact Or.inl
            exact congrArg Bool.not (decide_eq_decide.mpr hiff)
          rw [hfiltereq, List.filter_cons]
          have hc : (!(decide ((videoId, f) ∈ queueKeys s.priorityQueue))) = true := by
            simp [hmem]
          rw [hc]
          simp only [if_true, List.length_cons]
          omega

theorem frameRange_nodup (a b : ℤ) : (frameRange a b).Nodup := by
  unfold frameRange
  apply List.Nodup.map ?_ (List.nodup_range _)
  intro i j h
  simp only at h
  omega

theorem applyStoreOp_uniq (s : FrameStore) (op : StoreOp)
    (h : QueueUniq s.priorityQueue) : QueueUniq (applyStoreOp s op).priorityQueue := by
  cases op with
  | opGetFrame vid n now =>
      show QueueUniq (s.getFrame vid n now).2.priorityQueue
      rcases getFrame_queue_cases s vid n now with hq | hq
      · rw [hq]; exact h
      · rw [hq]; exact addToQueue_uniq _ _ h
  | opPrioritize vid a b now =>
      show QueueUniq (s.prioritize vid a b now).priorityQueue
      unfold prioritize
      exact foldl_addToQueue_uniq _ _ s h

theorem runStoreOps_uniq (s : FrameStore) (ops : List StoreOp)
    (h : QueueUniq s.priorityQueue) : QueueUniq (runStoreOps s ops).priorityQueue := by
  induction ops generalizing s with
  | nil => exact h
  | cons op rest ih => exact ih _ (applyStoreOp_uniq s op h)

/-- A duplicate-free queue holds at most one request per key. -/
theorem length_filter_key_le_one (q : List FrameRequest) (h : QueueUniq q)
    (vid : String) (n : ℤ) :
    (q.filter (fun r => decide (r.videoId = vid) && decide (r.frameNumber = n))).length ≤ 1 := by
  induction q with
  | nil => simp
  | cons r q ih =>
      unfold QueueUniq queueKeys at h
      rw [List.map_cons, List.nodup_cons] at h
      obtain ⟨hnotin, hq⟩ := h
      rw [List.filter_cons]
      split_ifs with hmatch
      · rw [List.length_cons]
        have hkey : r.videoId = vid ∧ r.frameNumber = n := by
          simpa [Bool.and_eq_true, decide_eq_true_eq] using hmatch
        have hrest : q.filter
            (fun r => decide (r.videoId = vid) && decide (r.frameNumber = n)) = [] := by
          rw [List.filter_eq_nil_iff]
          intro r' hr'
          simp only [Bool.and_eq_true, decide_eq_true_eq, not_and]
          intro hv hn
          exact hnotin (by
            rw [hkey.1, hkey.2]
            exact List.mem_map.mpr ⟨r', hr', by rw [hv, hn]⟩)
        rw [hrest]
        simp
      · exact ih hq

end FrameStore

/-! ## Claim C5 -/

/-- **C5.**  Pending-request uniqueness: (1) over any sequence of
`getFrame` / `prioritize` calls starting from a duplicate-free queue, the
queue holds at most one request per `(videoId, frameNumber)` key; (2)
calling `getFrame` twice on an uncached, unqueued frame returns `null`
both times, the second call changes nothing, and the queue then holds
exactly one request for that key, at priority 1; (3) a second
`prioritize` over an overlapping range adds keys only for its own range
and grows the queue by exactly the number of genuinely new frame numbers
(absent the 1000-entry truncation). -/
theorem c5_pending_request_uniqueness (s : FrameStore)
    (hu : QueueUniq s.priorityQueue)
    (ops : List StoreOp) (vid : String) (n now now' a b a' b' : ℤ)
    (hmiss : s.frameCache.hasKey (frameKey vid n) = false)
    (hnotq : (vid, n) ∉ queueKeys s.priorityQueue)
    (hlen : s.priorityQueue.length < 1000)
    (hroom : s.priorityQueue.length + (FrameStore.frameRange a b).length
      + (FrameStore.frameRange a' b').length ≤ 1000) :
    (∀ v : String, ∀ m : ℤ,
      ((runStoreOps s ops).priorityQueue.filter
        (fun r => decide (r.videoId = v) && decide (r.frameNumber = m))).length ≤ 1) ∧
    (s.getFrame vid n now).1 = none ∧
    ((s.getFrame vid n now).2.getFrame vid n now').1 = none ∧
    ((s.getFrame vid n now).2.getFrame vid n now').2 = (s.getFrame vid n now).2 ∧
    ((s.getFrame vid n now).2.priorityQueue.filter
        (fun r => decide (r.videoId = vid) && decide (r.frameNumber = n))) =
      [{ videoId := vid, frameNumber := n, priority := 1, timestamp := now }] ∧
    (∀ key, key ∈ queueKeys
        ((s.prioritize vid a b now).prioritize vid a' b' now').priorityQueue ↔
      key ∈ queueKeys (s.prioritize vid a b now).priorityQueue ∨
        ∃ f ∈ FrameStore.frameRange a' b', key = (vid, f)) ∧
    ((s.prioritize vid a b now).prioritize vid a' b' now').priorityQueue.length =
      (s.prioritize vid a b now).priorityQueue.length +
        ((FrameStore.frameRange a' b').filter (fun f =>
          !(decide ((vid, f) ∈ queueKeys s.priorityQueue)
            || decide (f ∈ FrameStore.frameRange a b)))).length := by
  obtain ⟨h1, hs1⟩ := FrameStore.getFrame_miss s vid n now hmiss
  have hmiss2 : ((s.getFrame vid n now).2).frameCache.hasKey (frameKey vid n) = false := by
    rw [hs1, FrameStore.addToQueue_frameCache]
    exact hmiss
  obtain ⟨h3, h4⟩ := FrameStore.getFrame_miss ((s.getFrame vid n now).2) vid n now' hmiss2
  have hmem1 : (vid, n) ∈
      queueKeys (s.addToQueue
        { videoId := vid, frameNumber := n, priority := 1, timestamp := now }).priorityQueue :=
    (FrameStore.addToQueue_keys s
      { videoId := vid, frameNumber := n, priority := 1, timestamp := now }
      hlen (vid, n)).mpr (Or.inr rfl)
  have h5 : (s.getFrame vid n now).2.addToQueue
      { videoId := vid, frameNumber := n, priority := 1, timestamp := now' } =
      (s.getFrame vid n now).2 := by
    apply FrameStore.addToQueue_of_mem
    rw [hs1]
    exact hmem1
  have hperm := (FrameStore.addToQueue_perm_of_not_mem s
    { videoId := vid, frameNumber := n, priority := 1, timestamp := now } hnotq hlen).1
  have hfp := hperm.filter (fun r => decide (r.videoId = vid) && decide (r.frameNumber = n))
  rw [List.filter_append] at hfp
  have hnil : s.priorityQueue.filter
      (fun r => decide (r.videoId = vid) && decide (r.frameNumber = n)) = [] := by
    rw [List.filter_eq_nil_iff]
    intro r hr
    simp only [Bool.and_eq_true, decide_eq_true_eq, not_and]
    intro hv hn
    exact hnotq (List.mem_map.mpr ⟨r, hr, by rw [hv, hn]⟩)
  rw [hnil, List.nil_append] at hfp
  have hone : [(⟨vid, n, 1, now⟩ : FrameRequest)].filter
      (fun r => decide (r.videoId = vid) && decide (r.frameNumber = n)) =
      [{ videoId := vid, frameNumber := n, priority := 1, timestamp := now }] := by
    simp
  rw [hone] at hfp
  have hfilter := List.perm_singleton.mp hfp
  have hP1 : s.prioritize vid a b now
      = (FrameStore.frameRange a b).foldl
          (fun st f => st.addToQueue
            (FrameStore.prioritizeRequest vid (((a : ℚ) + (b : ℚ)) / 2) now f)) s := rfl
  obtain ⟨hu1, hkeys1, hlen1⟩ := FrameStore.foldl_addToQueue_spec vid
    (FrameStore.prioritizeRequest vid (((a : ℚ) + (b : ℚ)) / 2) now)
    (fun _ => rfl) (fun _ => rfl) (FrameStore.frameRange a b)
    (FrameStore.frameRange_nodup a b) s hu (by omega)
  rw [← hP1] at hu1 hkeys1 hlen1
  have hfle : ((FrameStore.frameRange a b).filter
      (fun f => !(decide ((vid, f) ∈ queueKeys s.priorityQueue)))).length ≤
      (FrameStore.frameRange a b).length := List.length_filter_le _ _
  have hbound2 : (s.prioritize vid a b now).priorityQueue.length
      + (FrameStore.frameRange a' b').length ≤ 1000 := by
    rw [hlen1]
    omega
  obtain ⟨-, hkeys2, hlen2⟩ := FrameStore.foldl_addToQueue_spec vid
    (FrameStore.prioritizeRequest vid (((a' : ℚ) + (b' : ℚ)) / 2) now')
    (fun _ => rfl) (fun _ => rfl) (FrameStore.frameRange a' b')
    (FrameStore.frameRange_nodup a' b') (s.prioritize vid a b now) hu1 hbound2
  have hP2 : (s.prioritize vid a b now).prioritize vid a' b' now'
      = (FrameStore.frameRange a' b').foldl
          (fun st f => st.addToQueue
            (FrameStore.prioritizeRequest vid (((a' : ℚ) + (b' : ℚ)) / 2) now' f))
          (s.prioritize vid a b now) := rfl
  rw [← hP2] at hkeys2 hlen2
  have hfeq : (FrameStore.frameRange a' b').filter
      (fun f => !(decide ((vid, f) ∈ queueKeys (s.prioritize vid a b now).priorityQueue)))
      = (FrameStore.frameRange a' b').filter
        (fun f => !(decide ((vid, f) ∈ queueKeys s.priorityQueue)
          || decide (f ∈ FrameStore.frameRange a b))) := by
    apply List.filter_congr
    intro f hf
    have hiff : (vid, f) ∈ queueKeys (s.prioritize vid a b now).priorityQueue ↔
        ((vid, f) ∈ queueKeys s.priorityQueue ∨ f ∈ FrameStore.frameRange a b) := by
      rw [hkeys1 (vid, f)]
      constructor
      · rintro (h | ⟨g, hg, heq⟩)
        · exact Or.inl h
        · injection heq with hv hg2
          subst hg2
          exact Or.inr hg
      · rintro (h | hf2)
        · exact Or.inl h
        · exact Or.inr ⟨f, hf2, rfl⟩
    rw [decide_eq_decide.mpr hiff, Bool.decide_or]
  refine ⟨?_, h1, h3, h4.trans h5, ?_, hkeys2, ?_⟩
  · exact fun v m =>
      FrameStore.length_filter_key_le_one _ (FrameStore.runStoreOps_uniq s ops hu) v m
  · rw [hs1]
    exact hfilter
  · rw [hlen2, hfeq]

/-- Concrete instance: the fresh store with an uncached, unqueued frame
`("v", 0)`; two `getFrame` calls return `null` both times and the second
changes nothing. -/
theorem c5_pending_request_uniqueness_witness :
    QueueUniq (FrameStore.create none).priorityQueue ∧
    (FrameStore.create none).frameCache.hasKey (frameKey "v" 0) = false ∧
    ((FrameStore.create none).getFrame "v" 0 0).1 = none ∧
    (((FrameStore.create none).getFrame "v" 0 0).2.getFrame "v" 0 1).1 = none ∧
    (((FrameStore.create none).getFrame "v" 0 0).2.getFrame "v" 0 1).2
      = ((FrameStore.create none).getFrame "v" 0 0).2 := by
  have h := c5_pending_request_uniqueness (FrameStore.create none) List.nodup_nil []
    "v" 0 0 1 0 1 0 2 rfl (List.not_mem_nil _) (by decide) (by decide)
  exact ⟨List.nodup_nil, rfl, h.2.1, h.2.2.1, h.2.2.2.1⟩

namespace LRUCache

variable {K V : Type} [DecidableEq K]

theorem maxSize_set (c : LRUCache K V) (k : K) (v : V) :
    (c.set k v).maxSize = c.maxSize := by
  unfold set
  split_ifs <;> rfl

/-- Updating an existing key does not grow the cache. -/
theorem length_set_of_hasKey (c : LRUCache K V) (k : K) (v : V)
    (h : c.hasKey k = true) : (c.set k v).entries.length ≤ c.entries.length := by
  unfold set
  rw [if_pos h]
  simp only [List.length_append, List.length_cons, List.length_nil]
  obtain ⟨key, hkmem⟩ := List.mem_map.mp ((hasKey_iff_mem c k).mp h)
  have hlt : (c.entries.filter (fun p => !(decide (p.1 = k)))).length < c.entries.length :=
    List.length_filter_lt_length_iff_exists.mpr
      ⟨key, hkmem.1, by simp [hkmem.2]⟩
  omega

end LRUCache

namespace FrameStore

theorem loadFrameImmediate_priorityQueue (s : FrameStore)
    (capture : String → ℤ → Option FrameImage) (vid : String) (n : ℤ) (fps : ℚ) :
    (s.loadFrameImmediate capture vid n fps).2.priorityQueue = s.priorityQueue := by
  unfold loadFrameImmediate
  split_ifs with h
  · rcases hc : capture vid n with _ | f <;> simp [hc]
  · rfl

theorem loadFrameImmediate_isProcessing (s : FrameStore)
    (capture : String → ℤ → Option FrameImage) (vid : String) (n : ℤ) (fps : ℚ) :
    (s.loadFrameImmediate capture vid n fps).2.isProcessing = s.isProcessing := by
  unfold loadFrameImmediate
  split_ifs with h
  · rcases hc : capture vid n with _ | f <;> simp [hc]
  · rfl

theorem loadFrameImmediate_videoElements (s : FrameStore)
    (capture : String → ℤ → Option FrameImage) (vid : String) (n : ℤ) (fps : ℚ) :
    (s.loadFrameImmediate capture vid n fps).2.videoElements = s.videoElements := by
  unfold loadFrameImmediate
  split_ifs with h
  · rcases hc : capture vid n with _ | f <;> simp [hc]
  · rfl

theorem loadFrameImmediate_maxSize (s : FrameStore)
    (capture : String → ℤ → Option FrameImage) (vid : String) (n : ℤ) (fps : ℚ) :
    (s.loadFrameImmediate capture vid n fps).2.frameCache.maxSize =
      s.frameCache.maxSize := by
  unfold loadFrameImmediate
  split_ifs with h
  · rcases hc : capture vid n with _ | f <;> simp [hc, LRUCache.maxSize_set]
  · rfl

theorem loadFrameImmediate_length (s : FrameStore)
    (capture : String → ℤ → Option FrameImage) (vid : String) (n : ℤ) (fps : ℚ) :
    (s.loadFrameImmediate capture vid n fps).2.frameCache.entries.length ≤
      s.frameCache.entries.length + 1 := by
  unfold loadFrameImmediate
  split_ifs with h
  · rcases hc : capture vid n with _ | f
    · simp [hc]
    · simp only [hc]
      exact LRUCache.length_set_le _ _ _
  · simp

theorem loadFrameImmediate_mono (s : FrameStore)
    (capture : String → ℤ → Option FrameImage) (vid : String) (n : ℤ) (fps : ℚ)
    (key0 : String × ℤ) (hcap : s.frameCache.entries.length < s.frameCache.maxSize)
    (h : s.frameCache.hasKey key0 = true) :
    (s.loadFrameImmediate capture vid n fps).2.frameCache.hasKey key0 = true := by
  unfold loadFrameImmediate
  split_ifs with hv
  · rcases hc : capture vid n with _ | f <;> simp [hc]
    · exact h
    · exact LRUCache.hasKey_set_preserved _ _ _ _ (Or.inl hcap) h
  · exact h

theorem loadFrameImmediate_seeks (s : FrameStore)
    (capture : String → ℤ → Option FrameImage) (vid : String) (n : ℤ) (fps : ℚ) :
    (s.loadFrameImmediate capture vid n fps).2.seeks = s.seeks ∨
      (s.loadFrameImmediate capture vid n fps).2.seeks =
        s.seeks ++ [(vid, (n : ℚ) / fps)] := by
  unfold loadFrameImmediate
  split_ifs with hv
  · rcases hc : capture vid n with _ | f <;> simp [hc]
  · exact Or.inl rfl

theorem loadFrameImmediate_success (s : FrameStore)
    (capture : String → ℤ → Option FrameImage) (vid : String) (n : ℤ) (fps : ℚ)
    (f : FrameImage) (hf : (s.loadFrameImmediate capture vid n fps).1 = some f) :
    (s.loadFrameImmediate capture vid n fps).2.frameCache.hasKey
      (frameKey vid n) = true := by
  unfold loadFrameImmediate at hf ⊢
  split_ifs at hf ⊢ with hv
  rcases hc : capture vid n with _ | f' <;> simp [hc, LRUCache.hasKey_set_self] at hf ⊢

/-- `processRequest` never touches the queue, the running flag, the bound
sources, or the cache capacity. -/
theorem processRequest_frame (capture : String → ℤ → Option FrameImage)
    (st : FrameStore) (r : FrameRequest) :
    (processRequest capture st r).priorityQueue = st.priorityQueue ∧
      (processRequest capture st r).isProcessing = st.isProcessing ∧
      (processRequest capture st r).videoElements = st.videoElements ∧
      (processRequest capture st r).frameCache.maxSize = st.frameCache.maxSize := by
  have hq := loadFrameImmediate_priorityQueue st capture r.videoId r.frameNumber 30
  have hp := loadFrameImmediate_isProcessing st capture r.videoId r.frameNumber 30
  have hv := loadFrameImmediate_videoElements st capture r.videoId r.frameNumber 30
  have hm := loadFrameImmediate_maxSize st capture r.videoId r.frameNumber 30
  unfold processRequest
  split_ifs with h1
  · exact ⟨rfl, rfl, rfl, rfl⟩
  · rcases hres : st.loadFrameImmediate capture r.videoId r.frameNumber 30 with ⟨fo, st'⟩
    rw [hres] at hq hp hv hm
    rcases fo with _ | f
    · exact ⟨hq, hp, hv, hm⟩
    · exact ⟨hq, hp, hv,
        (LRUCache.maxSize_set st'.frameCache (frameKey r.videoId r.frameNumber) f).trans hm⟩

/-- `processRequest` grows the cache by at most one entry. -/
theorem processRequest_length (capture : String → ℤ → Option FrameImage)
    (st : FrameStore) (r : FrameRequest) :
    (processRequest capture st r).frameCache.entries.length ≤
      st.frameCache.entries.length + 1 := by
  have hlen := loadFrameImmediate_length st capture r.videoId r.frameNumber 30
  have hsucc := loadFrameImmediate_success st capture r.videoId r.frameNumber 30
  unfold processRequest
  split_ifs with h1
  · omega
  · rcases hres : st.loadFrameImmediate capture r.videoId r.frameNumber 30 with ⟨fo, st'⟩
    rw [hres] at hlen hsucc
    dsimp only at hlen hsucc
    rcases fo with _ | f
    · exact hlen
    · have hk : st'.frameCache.hasKey (frameKey r.videoId r.frameNumber) = true :=
        hsucc f rfl
      have h2 := LRUCache.length_set_of_hasKey st'.frameCache
        (frameKey r.videoId r.frameNumber) f hk
      show ((st'.frameCache.set (frameKey r.videoId r.frameNumber) f)).entries.length ≤ _
      omega

/-- Under spare capacity, `processRequest` keeps every cached key. -/
theorem processRequest_mono (capture : String → ℤ → Option FrameImage)
    (st : FrameStore) (r : FrameRequest) (key0 : String × ℤ)
    (hcap : st.frameCache.entries.length < st.frameCache.maxSize)
    (h : st.frameCache.hasKey key0 = true) :
    (processRequest capture st r).frameCache.hasKey key0 = true := by
  have hmono := loadFrameImmediate_mono st capture r.videoId r.frameNumber 30 key0 hcap h
  have hsucc := loadFrameImmediate_success st capture r.videoId r.frameNumber 30
  unfold processRequest
  split_ifs with h1
  · exact h
  · rcases hres : st.loadFrameImmediate capture r.videoId r.frameNumber 30 with ⟨fo, st'⟩
    rw [hres] at hmono hsucc
    rcases fo with _ | f
    · exact hmono
    · exact LRUCache.hasKey_set_preserved _ _ _ _ (Or.inr (hsucc f rfl)) hmono

/-- A request whose source is bound and whose capture succeeds ends up
cached after its own `processRequest` step. -/
theorem processRequest_success (capture : String → ℤ → Option FrameImage)
    (st : FrameStore) (r : FrameRequest) (f : FrameImage)
    (hv : r.videoId ∈ st.videoElements)
    (hc : capture r.videoId r.frameNumber = some f) :
    (processRequest capture st r).frameCache.hasKey
      (frameKey r.videoId r.frameNumber) = true := by
  have hfst : (st.loadFrameImmediate capture r.videoId r.frameNumber 30).1 = some f := by
    unfold loadFrameImmediate
    rw [if_pos hv]
    simp [hc]
  unfold processRequest
  split_ifs with h1
  · exact h1
  · rcases hres : st.loadFrameImmediate capture r.videoId r.frameNumber 30 with ⟨fo, st'⟩
    rw [hres] at hfst
    rcases fo with _ | f'
    · simp at hfst
    · exact LRUCache.hasKey_set_self _ _ _

/-- Seeks added by one `processRequest` step: none, or exactly the
request's seek — and only when its key was not cached. -/
theorem processRequest_seeks (capture : String → ℤ → Option FrameImage)
    (st : FrameStore) (r : FrameRequest) :
    (processRequest capture st r).seeks = st.seeks ∨
      ((processRequest capture st r).seeks =
          st.seeks ++ [(r.videoId, (r.frameNumber : ℚ) / 30)] ∧
        st.frameCache.hasKey (frameKey r.videoId r.frameNumber) = false) := by
  have hseeks := loadFrameImmediate_seeks st capture r.videoId r.frameNumber 30
  unfold processRequest
  split_ifs with h1
  · exact Or.inl rfl
  · have h1' : st.frameCache.hasKey (frameKey r.videoId r.frameNumber) = false := by
      rwa [Bool.not_eq_true] at h1
    rcases hres : st.loadFrameImmediate capture r.videoId r.frameNumber 30 with ⟨fo, st'⟩
    rw [hres] at hseeks
    rcases fo with _ | f
    · rcases hseeks with hs | hs
      · exact Or.inl hs
      · exact Or.inr ⟨hs, h1'⟩
    · rcases hseeks with hs | hs
      · exact Or.inl hs
      · exact Or.inr ⟨hs, h1'⟩

/-- All the batch-loop facts C7 needs, by induction over the batch. -/
theorem processBatch_facts (capture : String → ℤ → Option FrameImage)
    (batch : List FrameRequest) :
    ∀ st : FrameStore,
      st.frameCache.entries.length + batch.length ≤ st.frameCache.maxSize →
      (batch.foldl (processRequest capture) st).priorityQueue = st.priorityQueue ∧
      (batch.foldl (processRequest capture) st).frameCache.entries.length ≤
        st.frameCache.entries.length + batch.length ∧
      (∀ key0, st.frameCache.hasKey key0 = true →
        (batch.foldl (processRequest capture) st).frameCache.hasKey key0 = true) ∧
      (∀ r ∈ batch, ∀ f, r.videoId ∈ st.videoElements →
        capture r.videoId r.frameNumber = some f →
        (batch.foldl (processRequest capture) st).frameCache.hasKey
          (frameKey r.videoId r.frameNumber) = true) ∧
      (∀ x ∈ (batch.foldl (processRequest capture) st).seeks, x ∈ st.seeks ∨
        ∃ r ∈ batch, x = (r.videoId, (r.frameNumber : ℚ) / 30) ∧
          st.frameCache.hasKey (frameKey r.videoId r.frameNumber) = false) := by
  induction batch with
  | nil =>
      intro st _
      exact ⟨rfl, by simp, fun _ h => h, by simp, fun x hx => Or.inl hx⟩
  | cons r rest ih =>
      intro st hcap
      rw [List.length_cons] at hcap
      have hcap1 : st.frameCache.entries.length < st.frameCache.maxSize := by omega
      obtain ⟨hq1, hp1, hv1, hm1⟩ := processRequest_frame capture st r
      have hl1 := processRequest_length capture st r
      have hcap' : (processRequest capture st r).frameCache.entries.length + rest.length ≤
          (processRequest capture st r).frameCache.maxSize := by
        rw [hm1]
        omega
      obtain ⟨ihq, ihl, ihmono, ihsucc, ihseeks⟩ := ih (processRequest capture st r) hcap'
      rw [List.foldl_cons]
      refine ⟨by rw [ihq, hq1], by simp only [List.length_cons]; omega, ?_, ?_, ?_⟩
      · intro key0 h
        exact ihmono key0 (processRequest_mono capture st r key0 hcap1 h)
      · intro r' hr' f hv hc
        rcases List.mem_cons.mp hr' with rfl | hr'
        · exact ihmono _ (processRequest_success capture st r' f hv hc)
        · exact ihsucc r' hr' f (by rwa [hv1]) hc
      · intro x hx
        rcases ihseeks x hx with hx1 | ⟨r', hr', hxr, hnc⟩
        · rcases processRequest_seeks capture st r with hs | ⟨hs, hnc0⟩
          · rw [hs] at hx1
            exact Or.inl hx1
          · rw [hs, List.mem_append] at hx1
            rcases hx1 with hx1 | hx1
            · exact Or.inl hx1
            · rw [List.mem_singleton] at hx1
              exact Or.inr ⟨r, List.mem_cons_self r rest, hx1, hnc0⟩
        · refine Or.inr ⟨r', List.mem_cons_of_mem r hr', hxr, ?_⟩
          by_contra hcc
          rw [Bool.not_eq_false] at hcc
          rw [processRequest_mono capture st r _ hcap1 hcc] at hnc
          cases hnc

/-- Folding the batch loop never touches the pending queue. -/
theorem processBatch_queue (capture : String → ℤ → Option FrameImage)
    (batch : List FrameRequest) :
    ∀ st : FrameStore,
      (batch.foldl (processRequest capture) st).priorityQueue = st.priorityQueue := by
  induction batch with
  | nil => exact fun st => rfl
  | cons r rest ih =>
      intro st
      rw [List.foldl_cons, ih, (processRequest_frame capture st r).1]

end FrameStore

/-! ## Claim C7 -/

/-- **C7.**  One `processQueue` pass: (1) does nothing while a pass is
already running; (2) does nothing on an empty queue; (3) otherwise removes
exactly the first five requests — the highest-priority ones, since (4) the
queue is sorted descending; (5) any batched request with a bound source and
a successful capture ends up cached, regardless of the other requests'
failures (the capture oracle is arbitrary elsewhere); and (6) no seek is
ever issued for a batched request whose key was already cached. -/
theorem c7_processQueue_batching (s : FrameStore)
    (capture : String → ℤ → Option FrameImage) :
    (s.isProcessing = true → s.processQueuePass capture = s) ∧
    (s.priorityQueue = [] → s.processQueuePass capture = s) ∧
    (s.isProcessing = false →
      (s.processQueuePass capture).priorityQueue = s.priorityQueue.drop 5) ∧
    (QueueSorted s.priorityQueue →
      ∀ r ∈ s.priorityQueue.take 5, ∀ r' ∈ s.priorityQueue.drop 5,
        r'.priority ≤ r.priority) ∧
    (s.isProcessing = false →
      s.frameCache.entries.length + 5 ≤ s.frameCache.maxSize →
      ∀ r ∈ s.priorityQueue.take 5, ∀ f : FrameImage,
        r.videoId ∈ s.videoElements →
        capture r.videoId r.frameNumber = some f →
        (s.processQueuePass capture).frameCache.hasKey
          (frameKey r.videoId r.frameNumber) = true) ∧
    (s.isProcessing = false →
      s.frameCache.entries.length + 5 ≤ s.frameCache.maxSize →
      ∀ r ∈ s.priorityQueue.take 5,
        s.frameCache.hasKey (frameKey r.videoId r.frameNumber) = true →
        ∀ x ∈ (s.processQueuePass capture).seeks, x ∉ s.seeks →
          x ≠ (r.videoId, (r.frameNumber : ℚ) / 30)) := by
  refine ⟨?_, ?_, ?_, ?_, ?_, ?_⟩
  · intro h
    unfold FrameStore.processQueuePass
    rw [if_pos (by simp [h])]
  · intro h
    unfold FrameStore.processQueuePass
    rw [if_pos (by simp [h])]
  · intro h
    by_cases hq : s.priorityQueue.isEmpty
    · unfold FrameStore.processQueuePass
      rw [if_pos (by simp [hq])]
      rw [List.isEmpty_iff.mp hq]
      simp
    · unfold FrameStore.processQueuePass
      rw [if_neg (by simp [h, hq])]
      exact FrameStore.processBatch_queue capture (s.priorityQueue.take 5)
        { s with priorityQueue := s.priorityQueue.drop 5, isProcessing := true }
  · intro hs r hr r' hr'
    unfold QueueSorted at hs
    rw [← List.take_append_drop 5 s.priorityQueue] at hs
    exact (List.pairwise_append.mp hs).2.2 r hr r' hr'
  · intro hproc hcap r hr f hv hc
    by_cases hq : s.priorityQueue.isEmpty
    · rw [List.isEmpty_iff.mp hq] at hr
      cases hr
    · unfold FrameStore.processQueuePass
      rw [if_neg (by simp [hproc, hq])]
      have hbatchlen : (s.priorityQueue.take 5).length ≤ 5 := List.length_take_le 5 _
      obtain ⟨-, -, -, hsucc, -⟩ := FrameStore.processBatch_facts capture
        (s.priorityQueue.take 5)
        { s with priorityQueue := s.priorityQueue.drop 5, isProcessing := true }
        (by simp only []; omega)
      exact hsucc r hr f hv hc
  · intro hproc hcap r hr hcached x hx hxnew
    by_cases hq : s.priorityQueue.isEmpty
    · rw [List.isEmpty_iff.mp hq] at hr
      cases hr
    · unfold FrameStore.processQueuePass at hx
      rw [if_neg (by simp [hproc, hq])] at hx
      have hbatchlen : (s.priorityQueue.take 5).length ≤ 5 := List.length_take_le 5 _
      obtain ⟨-, -, -, -, hseeks⟩ := FrameStore.processBatch_facts capture
        (s.priorityQueue.take 5)
        { s with priorityQueue := s.priorityQueue.drop 5, isProcessing := true }
        (by simp only []; omega)
      rcases hseeks x hx with hx1 | ⟨r', hr', hxr, hnc⟩
      · exact absurd hx1 hxnew
      · intro hxeq
        rw [hxeq] at hxr
        injection hxr with hvid hdiv
        have hnum : r'.frameNumber = r.frameNumber := by
          field_simp at hdiv
          omega
        have hkeyeq : frameKey r'.videoId r'.frameNumber =
            frameKey r.videoId r.frameNumber := by
          unfold frameKey
          rw [← hvid, hnum]
        rw [hkeyeq] at hnc
        rw [hcached] at hnc
        cases hnc

/-- Witness for C7: a pass invoked while running, and a pass on an empty
queue, both change nothing. -/
theorem c7_processQueue_batching_witness :
    ({ FrameStore.create none with isProcessing := true }).processQueuePass
        (fun _ _ => none) = { FrameStore.create none with isProcessing := true } ∧
      (FrameStore.create none).processQueuePass (fun _ _ => none) =
        FrameStore.create none :=
  ⟨(c7_processQueue_batching { FrameStore.create none with isProcessing := true }
      (fun _ _ => none)).1 rfl,
    (c7_processQueue_batching (FrameStore.create none) (fun _ _ => none)).2.1 rfl⟩

end VideoTest
